import Mathlib

/-!
# Verification of the Dexie.js Promise engine (src/Promise.js)

This file gives a shallow embedding of the core of the Promise engine found in
`src/Promise.js`: the promise state machine (`executePromiseTask`,
`handleRejection`), listener propagation (`propagateAllListeners`,
`propagateToListener`, `callListener`), the emulated microtask scheduler
(`asap`, `beginMicroTickScope`, `endMicroTickScope`, `physicalTick`,
`finalizePhysicalTick`), the unhandled-rejection tracker
(`addPossiblyUnhandledError`, `markErrorAsHandled`), the zone (PSD) machinery
(`newScope`, `usePSD`, zone finalization), the instance methods `then`,
`catch`, `finally`, the statics `Promise.resolve`, `Promise.reject`
(`PromiseReject`) and `Promise.race`, and the `wrap` helper.

Modelling conventions:
* JavaScript heap objects (promises, zones) live in lists indexed by ids
  inside an explicit `Engine` state record; object identity (`===`) is id
  equality.
* The engine's recursion (resolution procedure, microtask drain, zone
  finalization cascades) is made total with an explicit fuel parameter;
  running out of fuel leaves the state unchanged. Theorems either hold for
  every fuel or take fuel of the form `fuel + k` so that the interesting
  branches are reached.
* `debug` mode (long stacks, `_stackHolder`, `linkToPreviousPromise`,
  `currentFulfiller`) is off, as in production builds, so those lines are
  omitted. The `rejectionMapper` is the default identity (`mirror`).
* Thenables are core promises (`JSVal.promiseRef`); foreign thenables and the
  host-promise `env` patching done by `switchToZone` (which only affects
  native `await` interop) are outside the model, so `switchToZone` reduces to
  assigning the active-zone register `Engine.psd`.
* User callbacks are modelled by the `Handler` type: an arbitrary pure
  function (returning a value or throwing), the resolve/reject capabilities
  used by `Promise.race`, and the specific handler closures built by
  `catch(filter, handler)` and `finally(fn)` in the source.
* `Engine.finLog` and `Engine.firedUnhandled` are ghost instrumentation: the
  first records each invocation of a zone's `finalize`, the second each
  unhandled rejection delivered by `finalizePhysicalTick`; neither influences
  any other field.
-/

namespace DexiePromise

/-- JavaScript values as far as the Promise engine inspects them: primitives,
error objects (with a prototype-chain of class names, a `name` and a
`message`), and references to core promises. -/
inductive JSVal where
  | undef
  | nullv
  | bool (b : Bool)
  | num (n : Int)
  | str (s : String)
  | err (classes : List String) (name : String) (msg : String)
  | promiseRef (pid : Nat)
deriving DecidableEq, Repr

/-- JavaScript truthiness for the values of the model. -/
def truthy : JSVal → Bool
  | .undef => false
  | .nullv => false
  | .bool b => b
  | .num n => n != 0
  | .str s => s ≠ ""
  | .err _ _ _ => true
  | .promiseRef _ => true

/-- Reading the `name` property: only error objects carry one; every other
modelled value yields `undefined`, represented as `none`. -/
def nameOf : JSVal → Option String
  | .err _ n _ => some n
  | _ => none

/-- The `instanceof` check used by the constructor form of `catch`: an error
object is an instance of each constructor in its prototype chain; primitives
are instances of nothing. (Core promise references are never passed as
filters in the model.) -/
def instanceOf : JSVal → String → Bool
  | .err classes _ _, k => classes.contains k
  | _, _ => false

/-- Thenable test `value && typeof value.then === 'function'`: in the model
the only thenables are core promises (foreign thenables are not modelled). -/
def isThenable : JSVal → Bool
  | .promiseRef _ => true
  | _ => false

/-- The TypeError thrown by the resolution procedure on self-resolution. -/
def selfResolveError : JSVal :=
  .err ["TypeError", "Error"] "TypeError" "A promise cannot be resolved with itself."

/-- A user-supplied or engine-built callback. `user` is an arbitrary pure
callback (result or thrown value); `capResolve` / `capReject` are the resolve
and reject capabilities of a promise, passed as handlers by `Promise.race`;
the remaining constructors are the closures built by `finally(fn)` and the
two-argument `catch` in the source (`fn` of a `finally` is represented by its
outcome: `none` = returns normally, `some e` = throws `e`). -/
inductive Handler where
  | user (f : JSVal → Except JSVal JSVal)
  | capResolve (target : Nat)
  | capReject (target : Nat)
  | finallyFulfilled (onFinallyOutcome : Option JSVal)
  | finallyRejected (onFinallyOutcome : Option JSVal)
  | catchCtor (errorType : String) (handler : JSVal → Except JSVal JSVal)
  | catchName (errorName : String) (handler : JSVal → Except JSVal JSVal)

/-- A Listener record `{onFulfilled, onRejected, resolve, reject, psd}`.
`resolve` and `reject` are always the capabilities of one downstream promise
(`then` passes the returned promise's capabilities, `_then` the adopting
promise's), so they are represented by that promise's id `down`. -/
structure Listener where
  onFulfilled : Option Handler
  onRejected : Option Handler
  down : Nat
  psd : Nat

/-- A core promise: `_state` (`none` = pending, `some true` = fulfilled,
`some false` = rejected), `_value`, `_listeners`, owning zone `_PSD` and the
`_lib` opt-in flag. -/
structure Prom where
  state : Option Bool
  value : JSVal
  listeners : List Listener
  psd : Nat
  lib : Bool

/-- A zone (PSD). The global zone has no parent. `ref` is a JavaScript
number, so it may go negative; `--ref || finalize()` only fires on exactly
zero. -/
structure Zone where
  parent : Option Nat
  ref : Int

/-- Entries of the emulated microtask queue: a scheduled `callListener`
invocation `[cb, promise, listener]`, or the counter-decrement closure pushed
by `propagateAllListeners` and `run_at_end_of_this_or_next_physical_tick`. -/
inductive QItem where
  | callL (cb : Handler) (pid : Nat) (l : Listener)
  | decScheduledCheck

/-- The process-wide mutable state of the engine module. -/
structure Engine where
  proms : List Prom
  zones : List Zone
  psd : Nat
  queue : List QItem
  numScheduledCalls : Int
  unhandledErrors : List Nat
  rejectingErrors : List JSVal
  isOutsideMicroTick : Bool
  needsNewPhysicalTick : Bool
  physicalTickRequested : Bool
  firedUnhandled : List (Nat × JSVal)
  finLog : List Nat

/-- The global zone record. -/
def globalZone : Zone := { parent := none, ref := 0 }

/-- The module state right after load: no promises, only the global zone
active, empty queue, both scheduler flags set. -/
def freshEngine : Engine :=
  { proms := [], zones := [globalZone], psd := 0, queue := [],
    numScheduledCalls := 0, unhandledErrors := [], rejectingErrors := [],
    isOutsideMicroTick := true, needsNewPhysicalTick := true,
    physicalTickRequested := false, firedUnhandled := [], finLog := [] }

/-- Dereference a promise id (ids are always in range in real runs; a default
pending promise keeps the function total). -/
def promAt (st : Engine) (pid : Nat) : Prom :=
  (st.proms[pid]?).getD { state := none, value := .undef, listeners := [], psd := 0, lib := false }

/-- Store a promise record back into the heap. -/
def setProm (st : Engine) (pid : Nat) (p : Prom) : Engine :=
  { st with proms := st.proms.set pid p }

/-- Set `_state` and `_value` of a promise (the two assignments done together
in the resolve closure and in `handleRejection`). -/
def settleProm (st : Engine) (pid : Nat) (b : Bool) (v : JSVal) : Engine :=
  setProm st pid { promAt st pid with state := some b, value := v }

/-- Dereference a zone id. -/
def zoneAt (st : Engine) (zid : Nat) : Zone :=
  (st.zones[zid]?).getD globalZone

/-- Store a zone record back. -/
def setZone (st : Engine) (zid : Nat) (z : Zone) : Engine :=
  { st with zones := st.zones.set zid z }

/-- Add `d` to a zone's `ref` counter. -/
def bumpZoneRef (st : Engine) (zid : Nat) (d : Int) : Engine :=
  setZone st zid { zoneAt st zid with ref := (zoneAt st zid).ref + d }

/-- Push onto the microtask queue; when `needsNewPhysicalTick` is set, also
request the host bootstrap (`schedulePhysicalTick`) and clear the flag. -/
def asap (st : Engine) (item : QItem) : Engine :=
  let st1 := { st with queue := st.queue ++ [item] }
  if st1.needsNewPhysicalTick then
    { st1 with physicalTickRequested := true, needsNewPhysicalTick := false }
  else st1

/-- Open a virtual-tick scope; returns `wasRootExec` together with the new
state. -/
def beginMicroTickScope (st : Engine) : Bool × Engine :=
  (st.isOutsideMicroTick,
   { st with isOutsideMicroTick := false, needsNewPhysicalTick := false })

/-- Record a rejected promise in the global unhandled list, but only when no
promise with the same `_value` is present, so the root cause is the one
listed. -/
def addPossiblyUnhandledError (st : Engine) (pid : Nat) : Engine :=
  if st.unhandledErrors.any (fun q => decide ((promAt st q).value = (promAt st pid).value)) then st
  else { st with unhandledErrors := st.unhandledErrors ++ [pid] }

/-- Remove the first id whose promise `_value` equals `w` from a list. -/
def removeFirstValue (st : Engine) (w : JSVal) : List Nat → List Nat
  | [] => []
  | q :: qs => if (promAt st q).value = w then qs else q :: removeFirstValue st w qs

/-- Drop the (at most one, searched from the end of the array as the source
does) unhandled entry whose `_value` equals the given promise's `_value`. -/
def markErrorAsHandled (st : Engine) (pid : Nat) : Engine :=
  { st with unhandledErrors :=
      (removeFirstValue st (promAt st pid).value st.unhandledErrors.reverse).reverse }

/-- End of a physical tick: move the unhandled list aside and deliver each
residual rejection through its zone's `onunhandled` (here: the global
handler, recorded in the ghost `firedUnhandled` log; `tickFinalizers` is only
populated by `Promise.follow`, which is outside the model, so it is always
empty). -/
def finalizePhysicalTick (st : Engine) : Engine :=
  let errs := st.unhandledErrors
  let st1 := { st with unhandledErrors := [] }
  { st1 with firedUnhandled :=
      st1.firedUnhandled ++ errs.map (fun pid => (pid, (promAt st1 pid).value)) }

/-- Deeply embedded executors: the argument of `new Promise(fn)`. Covers the
executors the engine itself builds (`then`, `race`) and the user executors
needed for the claims. -/
inductive Executor where
  | noopExec
  | resolveWith (v : JSVal)
  | resolveSelf
  | rejectWith (r : JSVal)
  | throwing (e : JSVal)
  | thenExec (src : Nat) (onF onR : Option Handler)
  | raceExec (vs : List JSVal)

/-- Static `Promise.resolve`: a core promise is returned as-is; any other
modelled value (never a thenable here) is wrapped through the privileged
`new Promise(INTERNAL, true, value)` path. -/
def promiseResolveStatic (st : Engine) (v : JSVal) : Engine × JSVal :=
  match v with
  | .promiseRef _ => (st, v)
  | _ =>
    let pid := st.proms.length
    ({ st with proms := st.proms ++
        [{ state := some true, value := v, listeners := [], psd := st.psd, lib := false }] },
     .promiseRef pid)

mutual

/-- The resolve capability closure built inside `executePromiseTask`: ignore
if settled; throw a TypeError on self-resolution; adopt thenables through a
nested `executePromiseTask`; otherwise transition to fulfilled and propagate.
The second component is an exception thrown out of the call, if any. -/
def resolveValue (fuel : Nat) (st : Engine) (pid : Nat) (v : JSVal) : Engine × Option JSVal :=
  match fuel with
  | 0 => (st, none)
  | fuel + 1 =>
    if (promAt st pid).state.isSome then (st, none)
    else if v = .promiseRef pid then (st, some selfResolveError)
    else
      let (shouldTick, st1) :=
        if (promAt st pid).lib then beginMicroTickScope st else (false, st)
      match v with
      | .promiseRef q =>
        -- executePromiseTask(promise, (resolve, reject) => value._then(resolve, reject));
        -- _then registers a pass-through listener carrying this promise's capabilities
        let (st2, exc) := propagateToListener fuel st1 q
          { onFulfilled := none, onRejected := none, down := pid, psd := st1.psd }
        let (st3, exc2) :=
          match exc with
          | none => (st2, none)
          | some e => handleRejection fuel st2 pid e
        match exc2 with
        | some e => (st3, some e)
        | none => if shouldTick then endMicroTickScope fuel st3 else (st3, none)
      | _ =>
        let st2 := settleProm st1 pid true v
        let (st3, exc) := propagateAllListeners fuel st2 pid
        match exc with
        | some e => (st3, some e)
        | none => if shouldTick then endMicroTickScope fuel st3 else (st3, none)
termination_by structural fuel


/-- The reject capability `handleRejection(promise, reason)`: push the reason
onto the currently-rejecting scratch list, ignore if settled, map the reason
(identity by default), transition to rejected, track the possibly-unhandled
error and propagate. -/
def handleRejection (fuel : Nat) (st : Engine) (pid : Nat) (reason : JSVal) : Engine × Option JSVal :=
  match fuel with
  | 0 => (st, none)
  | fuel + 1 =>
    let st0 := { st with rejectingErrors := st.rejectingErrors ++ [reason] }
    if (promAt st0 pid).state.isSome then (st0, none)
    else
      let (shouldTick, st1) :=
        if (promAt st0 pid).lib then beginMicroTickScope st0 else (false, st0)
      -- reason = rejectionMapper(reason): the default mapper is the identity
      let st2 := settleProm st1 pid false reason
      -- debug-mode long-stack getter installation is skipped (debug off)
      let st3 := addPossiblyUnhandledError st2 pid
      let (st4, exc) := propagateAllListeners fuel st3 pid
      match exc with
      | some e => (st4, some e)
      | none => if shouldTick then endMicroTickScope fuel st4 else (st4, none)
termination_by structural fuel


/-- Run an executor under the `try` of `executePromiseTask`; a thrown
exception is turned into a rejection of the promise. -/
def executePromiseTask (fuel : Nat) (st : Engine) (pid : Nat) (ex : Executor) : Engine × Option JSVal :=
  match fuel with
  | 0 => (st, none)
  | fuel + 1 =>
    let (st1, exc) := runExecutor fuel st pid ex
    match exc with
    | none => (st1, none)
    | some e => handleRejection fuel st1 pid e
termination_by structural fuel


/-- Interpret an executor body, given the id of the promise whose resolve and
reject capabilities it received. -/
def runExecutor (fuel : Nat) (st : Engine) (pid : Nat) (ex : Executor) : Engine × Option JSVal :=
  match fuel with
  | 0 => (st, none)
  | fuel + 1 =>
    match ex with
    | .noopExec => (st, none)
    | .resolveWith v => resolveValue fuel st pid v
    | .resolveSelf => resolveValue fuel st pid (.promiseRef pid)
    | .rejectWith r => handleRejection fuel st pid r
    | .throwing e => (st, some e)
    | .thenExec src onF onR =>
      -- then's executor: propagateToListener(this, new Listener(onF, onR, resolve, reject, PSD))
      propagateToListener fuel st src
        { onFulfilled := onF, onRejected := onR, down := pid, psd := st.psd }
    | .raceExec vs => raceLoop fuel st pid vs
termination_by structural fuel


/-- The body of `Promise.race`:
`values.map(value => Promise.resolve(value).then(resolve, reject))`. -/
def raceLoop (fuel : Nat) (st : Engine) (pid : Nat) (vs : List JSVal) : Engine × Option JSVal :=
  match fuel with
  | 0 => (st, none)
  | fuel + 1 =>
    match vs with
    | [] => (st, none)
    | v :: rest =>
      let (st1, rv) := promiseResolveStatic st v
      match rv with
      | .promiseRef qid =>
        let r := newPromise fuel st1 (.thenExec qid (some (.capResolve pid)) (some (.capReject pid)))
        match r.2.2 with
        | some e => (r.1, some e)
        | none => raceLoop fuel r.1 pid rest
      | _ => raceLoop fuel st1 pid rest
termination_by structural fuel


/-- The public `new Promise(fn)` path: fresh pending promise bound to the
active zone, `++psd.ref`, then `executePromiseTask`. Returns the new id and
any exception that escaped (which JS would carry past the constructor). -/
def newPromise (fuel : Nat) (st : Engine) (ex : Executor) : Engine × Nat × Option JSVal :=
  match fuel with
  | 0 => (st, 0, none)
  | fuel + 1 =>
    let pid := st.proms.length
    let st1 := { st with proms := st.proms ++
        [{ state := none, value := .undef, listeners := [], psd := st.psd, lib := false }] }
    let st2 := bumpZoneRef st1 st1.psd 1
    let (st3, exc) := executePromiseTask fuel st2 pid ex
    (st3, pid, exc)
termination_by structural fuel


/-- When a promise settles: detach and propagate every listener, release the
promise's zone pin, and when no scheduled calls are pending, schedule the
counter-decrement probe that triggers physical-tick finalization. -/
def propagateAllListeners (fuel : Nat) (st : Engine) (pid : Nat) : Engine × Option JSVal :=
  match fuel with
  | 0 => (st, none)
  | fuel + 1 =>
    let ls := (promAt st pid).listeners
    let st1 := setProm st pid { promAt st pid with listeners := [] }
    let (st2, exc) := propagateList fuel st1 pid ls
    match exc with
    | some e => (st2, some e)
    | none =>
      let st3 := decRefOrFinalize fuel st2 (promAt st2 pid).psd
      if st3.numScheduledCalls = 0 then
        let st4 := { st3 with numScheduledCalls := st3.numScheduledCalls + 1 }
        (asap st4 .decScheduledCheck, none)
      else (st3, none)
termination_by structural fuel


/-- The `for` loop of `propagateAllListeners`; a thrown exception aborts the
loop and propagates. -/
def propagateList (fuel : Nat) (st : Engine) (pid : Nat) (ls : List Listener) : Engine × Option JSVal :=
  match fuel with
  | 0 => (st, none)
  | fuel + 1 =>
    match ls with
    | [] => (st, none)
    | l :: rest =>
      let (st1, exc) := propagateToListener fuel st pid l
      match exc with
      | some e => (st1, some e)
      | none => propagateList fuel st1 pid rest
termination_by structural fuel


/-- Deliver one listener: queue it while pending; short-circuit a null
handler by settling the downstream promise synchronously; otherwise pin the
listener's zone, count the scheduled call and enqueue `callListener`. -/
def propagateToListener (fuel : Nat) (st : Engine) (pid : Nat) (l : Listener) : Engine × Option JSVal :=
  match fuel with
  | 0 => (st, none)
  | fuel + 1 =>
    match (promAt st pid).state with
    | none =>
      (setProm st pid { promAt st pid with listeners := (promAt st pid).listeners ++ [l] }, none)
    | some s =>
      match (if s then l.onFulfilled else l.onRejected) with
      | none =>
        if s then resolveValue fuel st l.down (promAt st pid).value
        else handleRejection fuel st l.down (promAt st pid).value
      | some cb =>
        let st1 := bumpZoneRef st l.psd 1
        let st2 := { st1 with numScheduledCalls := st1.numScheduledCalls + 1 }
        (asap st2 (.callL cb pid l), none)
termination_by structural fuel


/-- The microtask-queued dispatcher: run the handler (tracking programmatic
re-rejection for the unhandled list on the rejected branch), settle the
downstream promise with its result, convert a synchronous throw into a
downstream rejection, and in the `finally` clause decrement the scheduled
counter (finalizing the physical tick at zero) and release the listener's
zone pin. -/
def callListener (fuel : Nat) (st : Engine) (cb : Handler) (pid : Nat) (l : Listener) : Engine × Option JSVal :=
  match fuel with
  | 0 => (st, none)
  | fuel + 1 =>
    let value := (promAt st pid).value
    let (stB, r) :=
      if (promAt st pid).state = some true then
        runHandler fuel st cb value
      else
        let stA := if st.rejectingErrors = [] then st else { st with rejectingErrors := [] }
        let (stA2, r0) := runHandler fuel stA cb value
        match r0 with
        | .ok ret =>
          (if value ∈ stA2.rejectingErrors then stA2 else markErrorAsHandled stA2 pid, .ok ret)
        | .error e => (stA2, .error e)
    let (stC, exc) :=
      match r with
      | .ok ret => resolveValue fuel stB l.down ret
      | .error e => (stB, some e)
    let (stD, exc2) :=
      match exc with
      | none => (stC, none)
      | some e => handleRejection fuel stC l.down e
    let stE := { stD with numScheduledCalls := stD.numScheduledCalls - 1 }
    let stF := if stE.numScheduledCalls = 0 then finalizePhysicalTick stE else stE
    (decRefOrFinalize fuel stF l.psd, exc2)
termination_by structural fuel


/-- Invoke a handler on a value. -/
def runHandler (fuel : Nat) (st : Engine) (h : Handler) (v : JSVal) : Engine × Except JSVal JSVal :=
  match fuel with
  | 0 => (st, .ok .undef)
  | fuel + 1 =>
    match h with
    | .user f => (st, f v)
    | .capResolve target =>
      let (st1, exc) := resolveValue fuel st target v
      (st1, match exc with | none => .ok .undef | some e => .error e)
    | .capReject target =>
      let (st1, exc) := handleRejection fuel st target v
      (st1, match exc with | none => .ok .undef | some e => .error e)
    | .finallyFulfilled outcome =>
      -- value => \{ onFinally(); return value; \}
      (match outcome with
       | some e => (st, .error e)
       | none => (st, .ok v))
    | .finallyRejected outcome =>
      -- err => \{ onFinally(); return PromiseReject(err); \}
      (match outcome with
       | some e => (st, .error e)
       | none =>
         let (st1, rv) := PromiseReject fuel st v
         (st1, .ok rv))
    | .catchCtor errorType handler =>
      -- err => err instanceof type ? handler(err) : PromiseReject(err)
      if instanceOf v errorType then (st, handler v)
      else
        let (st1, rv) := PromiseReject fuel st v
        (st1, .ok rv)
    | .catchName errorName handler =>
      -- err => err && err.name === type ? handler(err) : PromiseReject(err)
      if truthy v ∧ nameOf v = some errorName then (st, handler v)
      else
        let (st1, rv) := PromiseReject fuel st v
        (st1, .ok rv)
termination_by structural fuel


/-- Static `Promise.reject` / the privileged `new Promise(INTERNAL, false,
reason)` path: a promise born with `_state = false` and `_value = reason`;
the constructor then calls `handleRejection`, which only records the reason
in `rejectingErrors` and returns early, because the state is already set. -/
def PromiseReject (fuel : Nat) (st : Engine) (reason : JSVal) : Engine × JSVal :=
  match fuel with
  | 0 => (st, .undef)
  | fuel + 1 =>
    let pid := st.proms.length
    let st1 := { st with proms := st.proms ++
        [{ state := some false, value := reason, listeners := [], psd := st.psd, lib := false }] }
    let (st2, _exc) := handleRejection fuel st1 pid reason
    (st2, .promiseRef pid)
termination_by structural fuel


/-- Run a zone's `finalize`. For zones created by `newScope` the body is
`--this.parent.ref || this.parent.finalize()`; the global zone's body flushes
its (here always empty) foreign-unhandleds list. Each invocation is logged in
the ghost `finLog`. -/
def finalizeZone (fuel : Nat) (st : Engine) (zid : Nat) : Engine :=
  match fuel with
  | 0 => st
  | fuel + 1 =>
    let st1 := { st with finLog := st.finLog ++ [zid] }
    match (zoneAt st1 zid).parent with
    | none => st1
    | some parent => decRefOrFinalize fuel st1 parent
termination_by structural fuel


/-- The idiom `--psd.ref || psd.finalize()`: decrement and finalize exactly
when the counter lands on zero (a negative counter is truthy in JS). -/
def decRefOrFinalize (fuel : Nat) (st : Engine) (zid : Nat) : Engine :=
  match fuel with
  | 0 => st
  | fuel + 1 =>
    let st1 := bumpZoneRef st zid (-1)
    if (zoneAt st1 zid).ref = 0 then finalizeZone fuel st1 zid else st1
termination_by structural fuel


/-- Drain the microtask queue: repeatedly swap out the whole queue and run
its items until the queue stays empty, then reset the scheduler flags. An
exception thrown by an item aborts the drain without resetting the flags. -/
def endMicroTickScope (fuel : Nat) (st : Engine) : Engine × Option JSVal :=
  match fuel with
  | 0 => (st, none)
  | fuel + 1 =>
    if st.queue.isEmpty then
      ({ st with isOutsideMicroTick := true, needsNewPhysicalTick := true }, none)
    else
      let items := st.queue
      let st1 := { st with queue := [] }
      let (st2, exc) := runQItems fuel st1 items
      match exc with
      | some e => (st2, some e)
      | none => endMicroTickScope fuel st2
termination_by structural fuel


/-- Run one batch of drained queue items in order. -/
def runQItems (fuel : Nat) (st : Engine) (items : List QItem) : Engine × Option JSVal :=
  match fuel with
  | 0 => (st, none)
  | fuel + 1 =>
    match items with
    | [] => (st, none)
    | it :: rest =>
      let (st1, exc) := runQItem fuel st it
      match exc with
      | some e => (st1, some e)
      | none => runQItems fuel st1 rest
termination_by structural fuel


/-- Run a single queue item. -/
def runQItem (fuel : Nat) (st : Engine) (it : QItem) : Engine × Option JSVal :=
  match fuel with
  | 0 => (st, none)
  | fuel + 1 =>
    match it with
    | .callL cb pid l => callListener fuel st cb pid l
    | .decScheduledCheck =>
      let st1 := { st with numScheduledCalls := st.numScheduledCalls - 1 }
      (if st1.numScheduledCalls = 0 then finalizePhysicalTick st1 else st1, none)
termination_by structural fuel

end

/-- A physical tick fired by the host bootstrap:
`beginMicroTickScope() && endMicroTickScope()`. -/
def physicalTick (fuel : Nat) (st : Engine) : Engine × Option JSVal :=
  let (wasRootExec, st1) := beginMicroTickScope st
  if wasRootExec then endMicroTickScope fuel st1 else (st1, none)

/-- Instance method `then(onFulfilled, onRejected)`: a new promise whose
executor registers a listener on the source. -/
def thenOp (fuel : Nat) (st : Engine) (src : Nat) (onF onR : Option Handler) : Engine × Nat × Option JSVal :=
  newPromise fuel st (.thenExec src onF onR)

/-- Two-argument `catch(ErrorType, handler)` with a constructor filter:
`this.then(null, err => err instanceof type ? handler(err) : PromiseReject(err))`. -/
def catchWithCtor (fuel : Nat) (st : Engine) (src : Nat) (errorType : String)
    (handler : JSVal → Except JSVal JSVal) : Engine × Nat × Option JSVal :=
  thenOp fuel st src none (some (.catchCtor errorType handler))

/-- Two-argument `catch('ErrorName', handler)` with a string filter:
`this.then(null, err => err && err.name === type ? handler(err) : PromiseReject(err))`. -/
def catchWithName (fuel : Nat) (st : Engine) (src : Nat) (errorName : String)
    (handler : JSVal → Except JSVal JSVal) : Engine × Nat × Option JSVal :=
  thenOp fuel st src none (some (.catchName errorName handler))

/-- Instance method `finally(onFinally)`; `outcome` is the behaviour of
`onFinally` (`none` = returns, `some e` = throws `e`). -/
def finallyOp (fuel : Nat) (st : Engine) (src : Nat) (outcome : Option JSVal) : Engine × Nat × Option JSVal :=
  thenOp fuel st src (some (.finallyFulfilled outcome)) (some (.finallyRejected outcome))

/-- Static `Promise.race(values)`. -/
def PromiseRace (fuel : Nat) (st : Engine) (vs : List JSVal) : Engine × Nat × Option JSVal :=
  newPromise fuel st (.raceExec vs)

/-- Deeply embedded bodies for `newScope` / `usePSD`. -/
inductive ScopeBody where
  | noopBody
  | constructResolving (v : JSVal)

/-- Interpret a scope body under the current zone. `constructResolving v` is
the user function `() => \{ new Promise(resolve => resolve(v)); \}`. -/
def runScopeBody (fuel : Nat) (st : Engine) : ScopeBody → Engine × Option JSVal
  | .noopBody => (st, none)
  | .constructResolving v =>
    let r := newPromise fuel st (.resolveWith v)
    (r.1, r.2.2)

/-- The `usePSD(psd, fn, ...)` helper: save the active zone, switch, run, and
restore in a guaranteed-release step (env patching not modelled). -/
def usePSD (fuel : Nat) (st : Engine) (zid : Nat) (body : ScopeBody) : Engine × Option JSVal :=
  let saved := st.psd
  let st1 := { st with psd := zid }
  let (st2, exc) := runScopeBody fuel st1 body
  ({ st2 with psd := saved }, exc)

/-- The `newScope(fn, props, a1, a2)` zone constructor: create a child zone
with `ref = 0`, pin the parent, run `fn` under the child via `usePSD`, and if
the child's ref count is (still or again) zero afterwards, finalize it. -/
def newScope (fuel : Nat) (st : Engine) (body : ScopeBody) : Engine × Option JSVal :=
  let parentId := st.psd
  let zid := st.zones.length
  let st1 := { st with zones := st.zones ++ [{ parent := some parentId, ref := 0 }] }
  let st2 := bumpZoneRef st1 parentId 1
  let (st3, exc) := usePSD fuel st2 zid body
  match exc with
  | some e => (st3, some e)
  | none =>
    (if (zoneAt st3 zid).ref = 0 then finalizeZone fuel st3 zid else st3, none)

/-- The closure returned by `wrap(fn, errorCatcher)`, applied in state `st`.
`fn` is an arbitrary state transformer that returns a value or throws; the
result is `(final state, returned value if any, exception escaping the
drain)`. The `catch` clause passes a thrown exception to the catcher only
when one was supplied, then the `finally` clause restores the outer zone and,
for a root execution, drains the microtask queue. -/
def wrap (fuel : Nat) (fn : Engine → Engine × Except JSVal JSVal)
    (errorCatcher : Option (JSVal → Engine → Engine)) (zid : Nat) (st : Engine) :
    Engine × Option JSVal × Option JSVal :=
  let (wasRootExec, st1) := beginMicroTickScope st
  let outerScope := st1.psd
  let st2 := { st1 with psd := zid }
  let (st3, r) := fn st2
  let (st4, ret) :=
    match r with
    | .ok v => (st3, some v)
    | .error e =>
      match errorCatcher with
      | some c => (c e st3, none)
      | none => (st3, none)
  let st5 := { st4 with psd := outerScope }
  let (st6, drainExc) := if wasRootExec then endMicroTickScope fuel st5 else (st5, none)
  (st6, ret, drainExc)

/-- Iterate host-fired physical ticks (each one is
`beginMicroTickScope() && endMicroTickScope()`), to observe a promise after
any number of virtual ticks. -/
def iterateTicks (fuel : Nat) : Nat → Engine → Engine
  | 0, st => st
  | n + 1, st => iterateTicks fuel n (physicalTick fuel st).1

/-- One rejection event for the unhandled-rejection tracker: construct a
promise with a no-op executor (so it stays pending with no listeners) and
invoke its reject capability with the given reason — the path on which
`handleRejection` reaches `addPossiblyUnhandledError`. -/
def rejectFreshPromise (fuel : Nat) (st : Engine) (r : JSVal) : Engine :=
  let p := newPromise fuel st .noopExec
  (handleRejection fuel p.1 p.2.1 r).1

/-- A sequence of rejection events, each on a fresh promise. -/
def rejectSequence (fuel : Nat) (st : Engine) : List JSVal → Engine
  | [] => st
  | r :: rs => rejectSequence fuel (rejectFreshPromise fuel st r) rs

/-- Pure specification of the unhandled-list discipline, for comparison with
the engine: entries are (promise id, reason) pairs and a new entry is
appended only when no present entry carries the same reason. -/
def addUnhandledEntry (l : List (Nat × JSVal)) (pid : Nat) (r : JSVal) : List (Nat × JSVal) :=
  if l.any (fun q => decide (q.2 = r)) then l else l ++ [(pid, r)]

/-- Folding a reason sequence through the pure discipline, numbering the
rejecting promises from `n0`. -/
def unhandledModel (l : List (Nat × JSVal)) (n0 : Nat) : List JSVal → List (Nat × JSVal)
  | [] => l
  | r :: rs => unhandledModel (addUnhandledEntry l n0 r) (n0 + 1) rs

/-- Invariant tying an engine run of rejection events to the pure model:
heap size equals the number of processed reasons, the i-th promise is
rejected with the i-th reason, and the unhandled list abstracts to the pure
model. -/
def UnhandledInv (st : Engine) (processed : List JSVal) : Prop :=
  st.proms.length = processed.length ∧
  (∀ i, i < processed.length →
    (promAt st i).state = some false ∧ processed[i]? = some (promAt st i).value) ∧
  st.unhandledErrors.map (fun q => (q, (promAt st q).value)) = unhandledModel [] 0 processed

/-! ## Basic state lemmas -/

/-- Unfolding lemma for `promAt`. -/
theorem promAt_def (st : Engine) (pid : Nat) :
    promAt st pid = (st.proms[pid]?).getD
      { state := none, value := .undef, listeners := [], psd := 0, lib := false } := rfl

/-- A promise that is settled certainly exists in the heap. -/
theorem promAt_lt_length {st : Engine} {pid : Nat} {b : Bool}
    (h : (promAt st pid).state = some b) : pid < st.proms.length := by
  by_contra hn
  push_neg at hn
  rw [promAt_def, List.getElem?_eq_none hn] at h
  simp at h

/-- Dereferencing only looks at the `proms` field. -/
theorem promAt_congr {s t : Engine} (h : t.proms = s.proms) (pid : Nat) :
    promAt t pid = promAt s pid := by
  rw [promAt_def, promAt_def, h]

/-- Appending a fresh promise does not disturb existing ones. -/
theorem promAt_append_lt {st : Engine} {pid : Nat} (p : Prom) (h : pid < st.proms.length) :
    promAt { st with proms := st.proms ++ [p] } pid = promAt st pid := by
  rw [promAt_def, promAt_def]
  simp only [List.getElem?_append, h, if_pos]

/-- Dereferencing the just-appended promise. -/
theorem promAt_append_self {st : Engine} (p : Prom) :
    promAt { st with proms := st.proms ++ [p] } st.proms.length = p := by
  rw [promAt_def]
  simp [List.getElem?_concat_length]

/-- Writing one promise leaves the others untouched. -/
theorem promAt_setProm_ne {st : Engine} {pid q : Nat} (p : Prom) (h : pid ≠ q) :
    promAt (setProm st pid p) q = promAt st q := by
  rw [promAt_def, promAt_def, setProm]
  simp only [List.getElem?_set_ne h]

/-- Reading back a written promise. -/
theorem promAt_setProm_self {st : Engine} {pid : Nat} (p : Prom) (h : pid < st.proms.length) :
    promAt (setProm st pid p) pid = p := by
  rw [promAt_def, setProm]
  simp only [List.getElem?_set_self]
  simp [h]

/-- `setProm` keeps the heap size. -/
theorem setProm_length (st : Engine) (pid : Nat) (p : Prom) :
    (setProm st pid p).proms.length = st.proms.length := by
  simp [setProm]

/-- Predicate: two engine states agree on everything except the zone table
and the ghost finalize log (the only fields zone finalization touches). -/
def OnlyZones (s t : Engine) : Prop :=
  t.proms = s.proms ∧ t.queue = s.queue ∧ t.numScheduledCalls = s.numScheduledCalls ∧
  t.unhandledErrors = s.unhandledErrors ∧ t.rejectingErrors = s.rejectingErrors ∧
  t.firedUnhandled = s.firedUnhandled ∧ t.psd = s.psd ∧
  t.isOutsideMicroTick = s.isOutsideMicroTick ∧ t.needsNewPhysicalTick = s.needsNewPhysicalTick ∧
  t.physicalTickRequested = s.physicalTickRequested

theorem onlyZones_refl (s : Engine) : OnlyZones s s :=
  ⟨rfl, rfl, rfl, rfl, rfl, rfl, rfl, rfl, rfl, rfl⟩

theorem OnlyZones.trans {s t u : Engine} (h1 : OnlyZones s t) (h2 : OnlyZones t u) :
    OnlyZones s u := by
  obtain ⟨a1, a2, a3, a4, a5, a6, a7, a8, a9, a10⟩ := h1
  obtain ⟨b1, b2, b3, b4, b5, b6, b7, b8, b9, b10⟩ := h2
  exact ⟨b1.trans a1, b2.trans a2, b3.trans a3, b4.trans a4, b5.trans a5,
    b6.trans a6, b7.trans a7, b8.trans a8, b9.trans a9, b10.trans a10⟩

/-- Zone finalization (`finalizeZone` and the `--ref || finalize()` helper)
only mutates the zone table and the ghost log. -/
theorem zoneOps_onlyZones (fuel : Nat) :
    (∀ st zid, OnlyZones st (finalizeZone fuel st zid)) ∧
    (∀ st zid, OnlyZones st (decRefOrFinalize fuel st zid)) := by
  induction fuel with
  | zero =>
    constructor <;> intro st zid <;> simp only [finalizeZone, decRefOrFinalize] <;>
      exact onlyZones_refl st
  | succ f ih =>
    constructor
    · intro st zid
      show OnlyZones st (finalizeZone (f + 1) st zid)
      rw [finalizeZone]
      cases h : (zoneAt { st with finLog := st.finLog ++ [zid] } zid).parent with
      | none =>
        simp only [h]
        exact ⟨rfl, rfl, rfl, rfl, rfl, rfl, rfl, rfl, rfl, rfl⟩
      | some parent =>
        simp only [h]
        have step : OnlyZones st { st with finLog := st.finLog ++ [zid] } :=
          ⟨rfl, rfl, rfl, rfl, rfl, rfl, rfl, rfl, rfl, rfl⟩
        exact step.trans (ih.2 _ parent)
    · intro st zid
      show OnlyZones st (decRefOrFinalize (f + 1) st zid)
      rw [decRefOrFinalize]
      have step : OnlyZones st (bumpZoneRef st zid (-1)) := by
        simp only [bumpZoneRef, setZone]
        exact ⟨rfl, rfl, rfl, rfl, rfl, rfl, rfl, rfl, rfl, rfl⟩
      split
      · exact step.trans (ih.1 _ zid)
      · exact step

theorem finalizeZone_onlyZones (fuel : Nat) (st : Engine) (zid : Nat) :
    OnlyZones st (finalizeZone fuel st zid) := (zoneOps_onlyZones fuel).1 st zid

theorem decRefOrFinalize_onlyZones (fuel : Nat) (st : Engine) (zid : Nat) :
    OnlyZones st (decRefOrFinalize fuel st zid) := (zoneOps_onlyZones fuel).2 st zid

theorem OnlyZones.promAt_eq {s t : Engine} (h : OnlyZones s t) (pid : Nat) :
    promAt t pid = promAt s pid := promAt_congr h.1 pid

/-! ## C1 -/

/-- C1: for every promise, the state transitions at most once, only away from
pending; once settled, later invocations of the resolve capability (the
closure in `executePromiseTask`) and of the reject capability
(`handleRejection`) leave its state and value untouched: `resolveValue`
returns the whole state unchanged, and `handleRejection` (which still pushes
onto the `rejectingErrors` scratch list) leaves the promise record — hence
its state and its value — exactly as it was, and neither call throws. -/
theorem settled_promise_is_frozen (fuel : Nat) (st : Engine) (pid : Nat) (b : Bool) (v r : JSVal)
    (hb : (promAt st pid).state = some b) :
    resolveValue fuel st pid v = (st, none) ∧
    promAt (handleRejection fuel st pid r).1 pid = promAt st pid ∧
    (handleRejection fuel st pid r).2 = none := by
  have hsome : (promAt st pid).state.isSome = true := by rw [hb]; rfl
  cases fuel with
  | zero => exact ⟨rfl, rfl, rfl⟩
  | succ f =>
    have hsome2 : (promAt { st with rejectingErrors := st.rejectingErrors ++ [r] } pid).state.isSome = true := hsome
    refine ⟨?_, ?_, ?_⟩
    · rw [resolveValue]
      simp [hsome]
    · rw [handleRejection]
      simp only [hsome2, if_true]
      rfl
    · rw [handleRejection]
      simp only [hsome2, if_true]

/-- Witness for C1, at a promise fulfilled with `1` by `Promise.resolve`. -/
theorem settled_promise_is_frozen_witness :
    (promAt (promiseResolveStatic freshEngine (.num 1)).1 0).state = some true ∧
    resolveValue 5 (promiseResolveStatic freshEngine (.num 1)).1 0 (.num 2) =
      ((promiseResolveStatic freshEngine (.num 1)).1, none) :=
  ⟨rfl, (settled_promise_is_frozen 5 (promiseResolveStatic freshEngine (.num 1)).1 0 true
    (.num 2) (.num 3) rfl).1⟩

/-! ## C2 -/

/-- Bumping a zone counter does not touch the promise heap. -/
theorem promAt_bumpZoneRef (st : Engine) (zid : Nat) (d : Int) (q : Nat) :
    promAt (bumpZoneRef st zid d) q = promAt st q := rfl

theorem bumpZoneRef_proms (st : Engine) (zid : Nat) (d : Int) :
    (bumpZoneRef st zid d).proms = st.proms := rfl

theorem bumpZoneRef_queue (st : Engine) (zid : Nat) (d : Int) :
    (bumpZoneRef st zid d).queue = st.queue := rfl

theorem bumpZoneRef_psd (st : Engine) (zid : Nat) (d : Int) :
    (bumpZoneRef st zid d).psd = st.psd := rfl

/-- Enqueueing does not touch the promise heap. -/
theorem promAt_asap (st : Engine) (it : QItem) (q : Nat) :
    promAt (asap st it) q = promAt st q := by
  simp only [asap]
  split <;> rfl

/-- Enqueueing appends exactly one item. -/
theorem asap_queue (st : Engine) (it : QItem) :
    (asap st it).queue = st.queue ++ [it] := by
  simp only [asap]
  split <;> rfl

/-- C2 counterexample: `Promise.resolve(1).then(undefined, undefined)` — the
source promise is already settled and the relevant handler slot is null, so
`propagateToListener` short-circuits and settles the returned promise
synchronously, inside the `then` call itself: when `then` returns, the
returned promise (id 1) is already fulfilled with `1`, and the only queued
microtask is the scheduled-counter probe, not a settlement of the returned
promise. This refutes the claim that the returned promise is still pending
whenever `then` returns on a settled source. -/
theorem then_on_settled_without_handler_settles_synchronously :
    (promAt (thenOp 20 (promiseResolveStatic freshEngine (.num 1)).1 0 none none).1 1).state
        = some true ∧
    (promAt (thenOp 20 (promiseResolveStatic freshEngine (.num 1)).1 0 none none).1 1).value
        = .num 1 ∧
    (thenOp 20 (promiseResolveStatic freshEngine (.num 1)).1 0 none none).1.queue
        = [QItem.decScheduledCheck] :=
  ⟨rfl, rfl, rfl⟩

/-- C2 (amended): for every `then(onFulfilled, onRejected)` on an
already-settled promise whose relevant handler (the fulfilled one on a
fulfilled source, the rejected one on a rejected source) is an actual
function, the settlement of the returned promise is deferred: when `then`
returns, the returned promise is still pending and the handler invocation
sits as a `callListener` entry on the microtask queue. (When the relevant
handler is null, the returned promise is settled synchronously instead —
see the counterexample.) -/
theorem then_on_settled_with_handler_returns_pending (fuel : Nat) (st : Engine) (src : Nat)
    (onF onR : Option Handler) (b : Bool) (cb : Handler)
    (hb : (promAt st src).state = some b)
    (hcb : (if b then onF else onR) = some cb) :
    (promAt (thenOp (fuel + 4) st src onF onR).1 (thenOp (fuel + 4) st src onF onR).2.1).state
        = none ∧
    (thenOp (fuel + 4) st src onF onR).1.queue =
      st.queue ++ [QItem.callL cb src
        { onFulfilled := onF, onRejected := onR,
          down := (thenOp (fuel + 4) st src onF onR).2.1, psd := st.psd }] := by
  have hlt : src < st.proms.length := promAt_lt_length hb
  have key : (promAt (bumpZoneRef { st with proms := st.proms ++
      [{ state := none, value := JSVal.undef, listeners := [], psd := st.psd, lib := false }] }
        st.psd 1) src).state = some b := by
    rw [promAt_bumpZoneRef, promAt_append_lt _ hlt, hb]
  simp only [thenOp, newPromise, executePromiseTask, runExecutor, propagateToListener, key, hcb]
  constructor
  · rw [promAt_asap]
    simp [promAt_def, bumpZoneRef_proms, List.getElem?_concat_length]
  · rw [asap_queue]
    simp [bumpZoneRef_queue, bumpZoneRef_psd]

/-- Witness for the amended C2 theorem: `Promise.resolve(1).then(v => v)`
returns a promise that is still pending when `then` returns. -/
theorem then_on_settled_with_handler_returns_pending_witness :
    (promAt (promiseResolveStatic freshEngine (.num 1)).1 0).state = some true ∧
    (promAt (thenOp 20 (promiseResolveStatic freshEngine (.num 1)).1 0
        (some (.user fun v => .ok v)) none).1
      (thenOp 20 (promiseResolveStatic freshEngine (.num 1)).1 0
        (some (.user fun v => .ok v)) none).2.1).state = none :=
  ⟨rfl, (then_on_settled_with_handler_returns_pending 16
    (promiseResolveStatic freshEngine (.num 1)).1 0
    (some (.user fun v => .ok v)) none true (.user fun v => .ok v) rfl rfl).1⟩

/-! ## C3 -/

/-- Enqueueing does not touch the promise heap (`asap` only pushes). -/
theorem asap_proms (st : Engine) (it : QItem) : (asap st it).proms = st.proms := by
  simp only [asap]
  split <;> rfl

/-- Enqueueing does not touch the unhandled-rejection list. -/
theorem asap_unhandledErrors (st : Engine) (it : QItem) :
    (asap st it).unhandledErrors = st.unhandledErrors := by
  simp only [asap]
  split <;> rfl

/-- Writing a promise record back unchanged is invisible to the heap. -/
theorem promAt_setProm_same (st : Engine) (pid q : Nat) :
    promAt (setProm st pid (promAt st pid)) q = promAt st q := by
  rcases Nat.lt_or_ge pid st.proms.length with hlt | hge
  · by_cases hq : pid = q
    · subst hq; rw [promAt_setProm_self _ hlt]
    · rw [promAt_setProm_ne _ hq]
  · rw [promAt_def, promAt_def, setProm]
    simp [List.set_eq_of_length_le hge]
    rfl

/-- Propagating an empty listener list is a no-op. -/
theorem propagateList_nil (fuel : Nat) (st : Engine) (pid : Nat) :
    propagateList fuel st pid [] = (st, none) := by
  cases fuel <;> rfl

/-- Behaviour of `propagateAllListeners` on a promise with no listeners: no
exception, the heap reads the same, the unhandled list and the heap size are
untouched (only the scheduler bookkeeping and zone counters move). -/
theorem propagateAllListeners_nil_spec (fuel : Nat) (st : Engine) (pid : Nat)
    (h : (promAt st pid).listeners = []) :
    (∀ q, promAt (propagateAllListeners fuel st pid).1 q = promAt st q) ∧
    (propagateAllListeners fuel st pid).2 = none ∧
    (propagateAllListeners fuel st pid).1.unhandledErrors = st.unhandledErrors ∧
    (propagateAllListeners fuel st pid).1.proms.length = st.proms.length := by
  cases fuel with
  | zero => exact ⟨fun q => rfl, rfl, rfl, rfl⟩
  | succ f =>
    have hset : ({ promAt st pid with listeners := [] } : Prom) = promAt st pid := by
      rw [← h]
    rw [propagateAllListeners]
    simp only [h, hset, propagateList_nil]
    have hoz : OnlyZones (setProm st pid (promAt st pid))
        (decRefOrFinalize f (setProm st pid (promAt st pid))
          (promAt (setProm st pid (promAt st pid)) pid).psd) :=
      decRefOrFinalize_onlyZones f _ _
    refine ⟨?_, ?_, ?_, ?_⟩
    · intro q
      split
      · rw [promAt_asap]
        exact (hoz.promAt_eq q).trans (promAt_setProm_same st pid q)
      · exact (hoz.promAt_eq q).trans (promAt_setProm_same st pid q)
    · split <;> rfl
    · split
      · rw [asap_unhandledErrors]
        exact hoz.2.2.2.1
      · exact hoz.2.2.2.1
    · split
      · rw [asap_proms]
        exact (congrArg List.length hoz.1).trans (setProm_length st pid _)
      · exact (congrArg List.length hoz.1).trans (setProm_length st pid _)

/-- Behaviour of the reject capability on a pending, listener-free promise:
it never throws, the promise ends rejected with the reason, other promises
are untouched, the promise joins the unhandled list exactly when no listed
promise carries the same reason, and the heap size is unchanged. -/
theorem handleRejection_pending_spec (fuel : Nat) (st : Engine) (pid : Nat) (r : JSVal)
    (hpend : (promAt st pid).state = none)
    (hlib : (promAt st pid).lib = false)
    (hnil : (promAt st pid).listeners = [])
    (hlt : pid < st.proms.length) :
    ∃ t : Engine, handleRejection (fuel + 1) st pid r = (t, none) ∧
      promAt t pid = { promAt st pid with state := some false, value := r } ∧
      (∀ q, q ≠ pid → promAt t q = promAt st q) ∧
      t.unhandledErrors =
        (if st.unhandledErrors.any (fun q => decide ((promAt
            (settleProm { st with rejectingErrors := st.rejectingErrors ++ [r] } pid false r)
              q).value = r))
         then st.unhandledErrors else st.unhandledErrors ++ [pid]) ∧
      t.proms.length = st.proms.length := by
  have hs0 : (promAt { st with rejectingErrors := st.rejectingErrors ++ [r] } pid).state.isSome = false := by
    have h2 : (promAt { st with rejectingErrors := st.rejectingErrors ++ [r] } pid).state = none := hpend
    rw [h2]; rfl
  have hl0 : (promAt { st with rejectingErrors := st.rejectingErrors ++ [r] } pid).lib = false := hlib
  rw [handleRejection]
  simp only [hs0, Bool.false_eq_true, if_false, hl0]
  set st0 : Engine := { st with rejectingErrors := st.rejectingErrors ++ [r] } with hst0
  set st2 : Engine := settleProm st0 pid false r with hst2
  set stm : Engine := addPossiblyUnhandledError st2 pid with hstm
  have hlt0 : pid < st0.proms.length := hlt
  have hp2 : promAt st2 pid = { promAt st pid with state := some false, value := r } := by
    rw [hst2, settleProm, promAt_setProm_self _ hlt0]
    rfl
  have hpm : ∀ q, promAt stm q = promAt st2 q := by
    intro q
    rw [hstm, addPossiblyUnhandledError]
    split <;> rfl
  have hnil3 : (promAt stm pid).listeners = [] := by
    rw [hpm, hp2]
    exact hnil
  obtain ⟨hq, hexc, hu, hlen⟩ := propagateAllListeners_nil_spec fuel stm pid hnil3
  have hpa : propagateAllListeners fuel stm pid = ((propagateAllListeners fuel stm pid).1, none) := by
    rw [← hexc]
  rw [hpa]
  refine ⟨(propagateAllListeners fuel stm pid).1, rfl, ?_, ?_, ?_, ?_⟩
  · rw [hq, hpm, hp2]
  · intro q hqne
    rw [hq, hpm, hst2, settleProm, promAt_setProm_ne _ (fun he => hqne he.symm)]
    rfl
  · rw [hu]
    have hval : (promAt st2 pid).value = r := by rw [hp2]
    rw [hstm]
    simp only [addPossiblyUnhandledError, hval]
    have hul : st2.unhandledErrors = st.unhandledErrors := rfl
    rw [← hul]
    split <;> rfl
  · rw [hlen, hstm]
    have : (addPossiblyUnhandledError st2 pid).proms = st2.proms := by
      rw [addPossiblyUnhandledError]
      split <;> rfl
    rw [this, hst2, settleProm, setProm_length]

/-- C3 counterexample: a promise constructed with a no-op executor is still
pending when its resolve capability is later invoked with the promise itself.
The capability throws the TypeError to its caller (second component of the
result) and the promise stays pending, so the promise does not become
rejected, contradicting the claim for invocations made after the executor
has returned. -/
theorem late_self_resolution_leaves_promise_pending :
    resolveValue 20 (newPromise 20 freshEngine .noopExec).1 0 (.promiseRef 0)
      = ((newPromise 20 freshEngine .noopExec).1, some selfResolveError) ∧
    (promAt (newPromise 20 freshEngine .noopExec).1 0).state = none :=
  ⟨rfl, rfl⟩

/-- C3 (amended): invoking the resolve capability with the promise itself
raises the TypeError "A promise cannot be resolved with itself.". When that
happens during the executor run the surrounding `executePromiseTask` catches
it and the promise becomes rejected with exactly that TypeError (second and
third conjuncts, via the `resolveSelf` executor). A bare invocation after
the executor has returned instead throws the TypeError to the caller and
leaves the promise pending with the state unchanged (first conjunct). -/
theorem self_resolution_rejects_only_during_executor (fuel : Nat) (st : Engine) (pid : Nat)
    (hpend : (promAt st pid).state = none) :
    resolveValue (fuel + 1) st pid (.promiseRef pid) = (st, some selfResolveError) ∧
    (promAt (newPromise (fuel + 4) st .resolveSelf).1
        (newPromise (fuel + 4) st .resolveSelf).2.1).state = some false ∧
    (promAt (newPromise (fuel + 4) st .resolveSelf).1
        (newPromise (fuel + 4) st .resolveSelf).2.1).value = selfResolveError ∧
    (newPromise (fuel + 4) st .resolveSelf).2.2 = none := by
  have key : ∀ (s : Engine) (p : Nat), (promAt s p).state = none →
      resolveValue (fuel + 1) s p (.promiseRef p) = (s, some selfResolveError) := by
    intro s p hp
    rw [resolveValue]
    simp [hp]
  refine ⟨key st pid hpend, ?_⟩
  have hfresh : promAt (bumpZoneRef { st with proms := st.proms ++
      [{ state := none, value := JSVal.undef, listeners := [], psd := st.psd, lib := false }] }
        st.psd 1) st.proms.length
      = { state := none, value := JSVal.undef, listeners := [], psd := st.psd, lib := false } := by
    rw [promAt_bumpZoneRef, promAt_append_self]
  have hkeyB := key (bumpZoneRef { st with proms := st.proms ++
      [{ state := none, value := JSVal.undef, listeners := [], psd := st.psd, lib := false }] }
        st.psd 1) st.proms.length (by rw [hfresh])
  obtain ⟨t, hhr, hpid, hq, hu, hlen⟩ := handleRejection_pending_spec (fuel + 1)
    (bumpZoneRef { st with proms := st.proms ++
      [{ state := none, value := JSVal.undef, listeners := [], psd := st.psd, lib := false }] }
        st.psd 1) st.proms.length selfResolveError
    (by rw [hfresh]) (by rw [hfresh]) (by rw [hfresh])
    (by rw [bumpZoneRef_proms]; simp)
  rw [show fuel + 1 + 1 = fuel + 2 from rfl] at hhr
  simp only [newPromise, executePromiseTask, runExecutor, hkeyB, hhr]
  exact ⟨by rw [hpid], by rw [hpid], trivial⟩

/-- Witness for the amended C3 theorem on a freshly constructed pending
promise. -/
theorem self_resolution_rejects_only_during_executor_witness :
    (promAt (newPromise 20 freshEngine .noopExec).1 0).state = none ∧
    resolveValue 20 (newPromise 20 freshEngine .noopExec).1 0 (.promiseRef 0)
      = ((newPromise 20 freshEngine .noopExec).1, some selfResolveError) :=
  ⟨rfl, (self_resolution_rejects_only_during_executor 19
    (newPromise 20 freshEngine .noopExec).1 0 rfl).1⟩

/-! ## C4 -/

/-- A zone with a nonzero counter exists in the zone table. -/
theorem zoneAt_lt_length {st : Engine} {zid : Nat} (h : (zoneAt st zid).ref ≠ 0) :
    zid < st.zones.length := by
  by_contra hn
  push_neg at hn
  rw [zoneAt, List.getElem?_eq_none hn] at h
  exact h rfl

/-- Reading back a written zone. -/
theorem zoneAt_setZone_self {st : Engine} {zid : Nat} (z : Zone) (h : zid < st.zones.length) :
    zoneAt (setZone st zid z) zid = z := by
  rw [zoneAt, setZone]
  simp only [List.getElem?_set_self]
  simp [h]

/-- Zone finalization only ever appends to the ghost finalize log. -/
theorem zoneOps_finLog_mono (fuel : Nat) :
    (∀ st zid, ∃ t, (finalizeZone fuel st zid).finLog = st.finLog ++ t) ∧
    (∀ st zid, ∃ t, (decRefOrFinalize fuel st zid).finLog = st.finLog ++ t) := by
  induction fuel with
  | zero =>
    exact ⟨fun st zid => ⟨[], by simp [finalizeZone]⟩,
           fun st zid => ⟨[], by simp [decRefOrFinalize]⟩⟩
  | succ f ih =>
    constructor
    · intro st zid
      rw [finalizeZone]
      cases hp : (zoneAt { st with finLog := st.finLog ++ [zid] } zid).parent with
      | none =>
        simp only [hp]
        exact ⟨[zid], rfl⟩
      | some parent =>
        simp only [hp]
        obtain ⟨t, ht⟩ := ih.2 { st with finLog := st.finLog ++ [zid] } parent
        exact ⟨zid :: t, by rw [ht]; simp⟩
    · intro st zid
      rw [decRefOrFinalize]
      split
      · obtain ⟨t, ht⟩ := ih.1 (bumpZoneRef st zid (-1)) zid
        exact ⟨t, ht⟩
      · exact ⟨[], by simp [bumpZoneRef, setZone]⟩

/-- C4 counterexample: running
`newScope(() => { new Promise(resolve => resolve(42)); })` from the fresh
engine. The child zone (id 1) starts at ref 0, the promise constructor raises
it to 1 and its settlement drops it back to 0, so the precondition of the
claim holds; yet the finalize log shows the child zone finalized twice — once
at the settlement zero-crossing (which also finalizes the global parent, id
0) and once more by the trailing `if (psd.ref === 0) psd.finalize()` of
`newScope` — and the second child run even comes after the parent run. The
parent counter is left at -1. This refutes "finalize runs exactly once". -/
theorem newScope_finalize_runs_twice :
    (newScope 30 freshEngine (.constructResolving (.num 42))).1.finLog = [1, 0, 1] ∧
    ((newScope 30 freshEngine (.constructResolving (.num 42))).1.finLog.count 1 = 2) ∧
    (zoneAt (newScope 30 freshEngine (.constructResolving (.num 42))).1 0).ref = -1 :=
  ⟨rfl, rfl, rfl⟩

/-- C4 (amended): whenever a zone's ref count is decremented from 1 to 0 by
the `--psd.ref || psd.finalize()` idiom, its finalize runs at that moment and
before any parent finalize it triggers (the finalize log continues with the
zone's own id first). Finalize is however not guaranteed to run exactly once
overall: `newScope` calls finalize again at scope exit when the ref count is
(still or again) zero, so in the counterexample scenario the child zone's
finalize runs twice, the second time after the parent's. -/
theorem zone_finalize_zero_crossing_order (fuel : Nat) (st : Engine) (zid : Nat)
    (h : (zoneAt st zid).ref = 1) :
    (∃ rest, (decRefOrFinalize (fuel + 2) st zid).finLog = st.finLog ++ zid :: rest) ∧
    (newScope 30 freshEngine (.constructResolving (.num 42))).1.finLog = [1, 0, 1] := by
  refine ⟨?_, rfl⟩
  have hlt : zid < st.zones.length := zoneAt_lt_length (by rw [h]; decide)
  have hz : zoneAt (bumpZoneRef st zid (-1)) zid
      = { zoneAt st zid with ref := (zoneAt st zid).ref + (-1) } := by
    rw [bumpZoneRef, zoneAt_setZone_self _ hlt]
  have hz0 : (zoneAt (bumpZoneRef st zid (-1)) zid).ref = 0 := by
    rw [hz, h]
    rfl
  rw [decRefOrFinalize, if_pos hz0, finalizeZone]
  cases hp : (zoneAt { bumpZoneRef st zid (-1) with
      finLog := (bumpZoneRef st zid (-1)).finLog ++ [zid] } zid).parent with
  | none =>
    simp only [hp]
    exact ⟨[], by simp [bumpZoneRef, setZone]⟩
  | some parent =>
    simp only [hp]
    obtain ⟨t, ht⟩ := (zoneOps_finLog_mono fuel).2
      { bumpZoneRef st zid (-1) with finLog := (bumpZoneRef st zid (-1)).finLog ++ [zid] } parent
    exact ⟨t, by rw [ht]; simp [bumpZoneRef, setZone]⟩

/-- Witness for the amended C4 theorem, on an engine whose child zone (id 1)
has one pinned continuation. -/
theorem zone_finalize_zero_crossing_order_witness :
    (zoneAt { freshEngine with zones := [globalZone, { parent := some 0, ref := 1 }] } 1).ref = 1 ∧
    ∃ rest, (decRefOrFinalize 5
      { freshEngine with zones := [globalZone, { parent := some 0, ref := 1 }] } 1).finLog
        = 1 :: rest :=
  ⟨rfl, (zone_finalize_zero_crossing_order 3
    { freshEngine with zones := [globalZone, { parent := some 0, ref := 1 }] } 1 rfl).1⟩

/-! ## C9 -/

/-- A physical tick on a state whose microtask queue is empty only resets the
scheduler flags: the queue stays empty and the promise heap is untouched. -/
theorem physicalTick_empty_queue (fuel : Nat) (st : Engine) (h : st.queue = []) :
    (physicalTick fuel st).1.queue = [] ∧ (physicalTick fuel st).1.proms = st.proms := by
  simp only [physicalTick, beginMicroTickScope]
  split
  · cases fuel with
    | zero => exact ⟨h, rfl⟩
    | succ f =>
      rw [endMicroTickScope]
      have hq : ({ st with isOutsideMicroTick := false, needsNewPhysicalTick := false } : Engine).queue.isEmpty = true := by
        simp [h]
      rw [if_pos hq]
      exact ⟨h, rfl⟩
  · exact ⟨h, rfl⟩

/-- C9: `Promise.race([])` produces a promise (id 0 from the fresh engine)
whose executor registers nothing; the promise is pending, and it remains
pending after any number of physical ticks — it never settles. -/
theorem race_empty_never_settles (fuel n : Nat) :
    (promAt (iterateTicks fuel n (PromiseRace 20 freshEngine []).1) 0).state = none ∧
    (PromiseRace 20 freshEngine []).2.1 = 0 := by
  refine ⟨?_, rfl⟩
  suffices h : ∀ m (st : Engine), st.queue = [] →
      (iterateTicks fuel m st).queue = [] ∧ (iterateTicks fuel m st).proms = st.proms by
    have h0 : (PromiseRace 20 freshEngine []).1.queue = [] := rfl
    have h2 := (h n _ h0).2
    rw [promAt_def, h2]
    rfl
  intro m
  induction m with
  | zero => exact fun st h => ⟨h, rfl⟩
  | succ k ih =>
    intro st h
    have hp := physicalTick_empty_queue fuel st h
    rw [iterateTicks]
    obtain ⟨h1, h2⟩ := ih _ hp.1
    exact ⟨h1, h2.trans hp.2⟩

/-- Witness for C9 at two ticks. -/
theorem race_empty_never_settles_witness :
    (promAt (iterateTicks 5 2 (PromiseRace 20 freshEngine []).1) 0).state = none :=
  (race_empty_never_settles 5 2).1

/-! ## C10 -/

/-- C10: a function wrapped by `wrap(fn)` with no `errorCatcher`, when `fn`
throws, swallows the exception entirely: the final engine state and the
drain outcome are exactly those of the same run in which `fn` returned
normally (so the exception causes no rejection and is not rethrown), and the
wrapped call returns undefined (`none`). The second conjunct shows the
catcher is invoked exactly when supplied: with `errorCatcher = c`, the
outcome is that of applying `c e` to the post-`fn` state, still returning
undefined. -/
theorem wrap_swallows_exception_without_catcher (fuel : Nat) (g : Engine → Engine)
    (e v : JSVal) (zid : Nat) (st : Engine) (c : JSVal → Engine → Engine) :
    (wrap fuel (fun s => (g s, .error e)) none zid st
      = ((wrap fuel (fun s => (g s, .ok v)) none zid st).1, none,
         (wrap fuel (fun s => (g s, .ok v)) none zid st).2.2)) ∧
    ((wrap fuel (fun s => (g s, .error e)) (some c) zid st).1
      = (wrap fuel (fun s => (c e (g s), .ok v)) none zid st).1 ∧
     (wrap fuel (fun s => (g s, .error e)) (some c) zid st).2.1 = none) := by
  by_cases hroot : st.isOutsideMicroTick
  · constructor
    · simp only [wrap, beginMicroTickScope, hroot, if_true]
    · constructor
      · simp only [wrap, beginMicroTickScope, hroot, if_true]
      · simp only [wrap, beginMicroTickScope, hroot, if_true]
  · constructor
    · simp only [wrap, beginMicroTickScope, hroot, Bool.false_eq_true, if_false]
    · constructor
      · simp only [wrap, beginMicroTickScope, hroot, Bool.false_eq_true, if_false]
      · simp only [wrap, beginMicroTickScope, hroot, Bool.false_eq_true, if_false]

/-- Witness for C10 with a throwing no-effect function on the fresh engine. -/
theorem wrap_swallows_exception_without_catcher_witness :
    wrap 5 (fun s => (s, .error (.str "boom"))) none 0 freshEngine
      = ((wrap 5 (fun s => (s, .ok .undef)) none 0 freshEngine).1, none,
         (wrap 5 (fun s => (s, .ok .undef)) none 0 freshEngine).2.2) :=
  (wrap_swallows_exception_without_catcher 5 (fun s => s) (.str "boom") .undef 0 freshEngine
    (fun _ s => s)).1

/-! ## C8 -/

/-- Behaviour of the resolve capability on a pending, listener-free promise
when given a non-thenable value: no exception, the promise transitions to
fulfilled with that value, other promises are untouched and the heap size is
unchanged. -/
theorem resolveValue_fulfill_spec (fuel : Nat) (st : Engine) (pid : Nat) (v : JSVal)
    (hpend : (promAt st pid).state = none)
    (hlib : (promAt st pid).lib = false)
    (hnil : (promAt st pid).listeners = [])
    (hlt : pid < st.proms.length)
    (hv : ∀ q, v ≠ .promiseRef q) :
    ∃ t : Engine, resolveValue (fuel + 1) st pid v = (t, none) ∧
      promAt t pid = { promAt st pid with state := some true, value := v } ∧
      (∀ q, q ≠ pid → promAt t q = promAt st q) ∧
      t.proms.length = st.proms.length := by
  rw [resolveValue]
  have h1 : (promAt st pid).state.isSome = false := by rw [hpend]; rfl
  have h2 : (v = JSVal.promiseRef pid) = False := by simp [hv pid]
  simp only [h1, Bool.false_eq_true, if_false, h2, hlib]
  have hnil2 : (promAt (settleProm st pid true v) pid).listeners = [] := by
    rw [settleProm, promAt_setProm_self _ hlt]
    exact hnil
  obtain ⟨hq, hexc, hu, hlen⟩ :=
    propagateAllListeners_nil_spec fuel (settleProm st pid true v) pid hnil2
  rw [hexc]
  refine ⟨(propagateAllListeners fuel (settleProm st pid true v) pid).1, rfl, ?_, ?_, ?_⟩
  · rw [hq pid, settleProm, promAt_setProm_self _ hlt]
    simp only [hlib]
  · intro q hqne
    rw [hq q, settleProm, promAt_setProm_ne _ (fun he => hqne he.symm)]
  · rw [hlen, settleProm, setProm_length]

/-- C8: `Promise.resolve(p)` on a core promise `p` returns `p` itself — the
same reference, with the whole engine state unchanged, so no wrapper is
allocated (first conjunct). And constructing a new promise whose executor
resolves it with an already-fulfilled core promise `q` (the adoption path
`value._then(resolve, reject)` inside the resolution procedure) produces a
promise that is fulfilled with the same value as `q`, and no exception
escapes (remaining conjuncts). -/
theorem resolve_adoption_idempotence (fuel : Nat) (st : Engine) (q : Nat) (w : JSVal)
    (hqf : (promAt st q).state = some true) (hval : (promAt st q).value = w)
    (hw : ∀ p, w ≠ .promiseRef p) :
    promiseResolveStatic st (.promiseRef q) = (st, .promiseRef q) ∧
    (promAt (newPromise (fuel + 7) st (.resolveWith (.promiseRef q))).1
        (newPromise (fuel + 7) st (.resolveWith (.promiseRef q))).2.1).state = some true ∧
    (promAt (newPromise (fuel + 7) st (.resolveWith (.promiseRef q))).1
        (newPromise (fuel + 7) st (.resolveWith (.promiseRef q))).2.1).value = w ∧
    (newPromise (fuel + 7) st (.resolveWith (.promiseRef q))).2.2 = none := by
  refine ⟨rfl, ?_⟩
  have hqlt : q < st.proms.length := promAt_lt_length hqf
  set B : Engine := bumpZoneRef { st with proms := st.proms ++
      [{ state := none, value := JSVal.undef, listeners := [], psd := st.psd, lib := false }] } st.psd 1 with hB
  have hfresh : promAt B st.proms.length
      = { state := none, value := JSVal.undef, listeners := [], psd := st.psd, lib := false } := by
    rw [hB, promAt_bumpZoneRef, promAt_append_self]
  have hBq : promAt B q = promAt st q := by
    rw [hB, promAt_bumpZoneRef, promAt_append_lt _ hqlt]
  have hne : q ≠ st.proms.length := Nat.ne_of_lt hqlt
  obtain ⟨t, hrv, hpidt, hqt, hlent⟩ := resolveValue_fulfill_spec (fuel + 1) B st.proms.length w
    (by rw [hfresh]) (by rw [hfresh]) (by rw [hfresh])
    (by rw [hB, bumpZoneRef_proms]; simp) hw
  rw [show fuel + 1 + 1 = fuel + 2 from rfl] at hrv
  have hptl : propagateToListener (fuel + 3) B q
      { onFulfilled := none, onRejected := none, down := st.proms.length, psd := B.psd } = (t, none) := by
    rw [propagateToListener]
    simp only [hBq, hqf, hval]
    exact hrv
  have hs : (promAt B st.proms.length).state.isSome = false := by rw [hfresh]; rfl
  have hne2 : (JSVal.promiseRef q = JSVal.promiseRef st.proms.length) = False := by simp [hne]
  have hout : resolveValue (fuel + 4) B st.proms.length (.promiseRef q) = (t, none) := by
    rw [resolveValue]
    simp only [hs, Bool.false_eq_true, if_false, hne2, hfresh]
    rw [hptl]
    rfl
  simp only [newPromise, executePromiseTask, runExecutor, ← hB, hout]
  refine ⟨?_, ?_, trivial⟩
  · rw [hpidt, hfresh]
  · rw [hpidt, hfresh]

/-- Witness for C8: adopting a promise fulfilled with `7`. -/
theorem resolve_adoption_idempotence_witness :
    (promAt (promiseResolveStatic freshEngine (.num 7)).1 0).state = some true ∧
    (promAt (newPromise 20 (promiseResolveStatic freshEngine (.num 7)).1
        (.resolveWith (.promiseRef 0))).1
      (newPromise 20 (promiseResolveStatic freshEngine (.num 7)).1
        (.resolveWith (.promiseRef 0))).2.1).value = .num 7 :=
  ⟨rfl, (resolve_adoption_idempotence 13 (promiseResolveStatic freshEngine (.num 7)).1 0
    (.num 7) rfl rfl (fun p h => by cases h)).2.2.1⟩

/-! ## C6 and C7 -/

/-- On an already-settled promise, `handleRejection` only records the reason
on the currently-rejecting scratch list and returns without throwing. -/
theorem handleRejection_settled (fuel : Nat) (st : Engine) (pid : Nat) (r : JSVal) (b : Bool)
    (hb : (promAt st pid).state = some b) :
    handleRejection (fuel + 1) st pid r
      = ({ st with rejectingErrors := st.rejectingErrors ++ [r] }, none) := by
  have hsome : (promAt { st with rejectingErrors := st.rejectingErrors ++ [r] } pid).state.isSome = true := by
    have h2 : (promAt { st with rejectingErrors := st.rejectingErrors ++ [r] } pid).state = some b := hb
    rw [h2]; rfl
  rw [handleRejection]
  simp only [hsome, if_true]

/-- The privileged rejected constructor `PromiseReject` appends a settled
rejected promise and records the reason on the scratch list; `handleRejection`
does nothing else because the state is already set, so in particular the
promise is never added to the unhandled-rejection list on this path. -/
theorem PromiseReject_spec (fuel : Nat) (st : Engine) (r : JSVal) :
    PromiseReject (fuel + 2) st r =
      ({ st with
          proms := st.proms ++ [{ state := some false, value := r, listeners := [], psd := st.psd, lib := false }],
          rejectingErrors := st.rejectingErrors ++ [r] }, .promiseRef st.proms.length) := by
  rw [PromiseReject]
  have hb : (promAt { st with proms := st.proms ++
      [{ state := some false, value := r, listeners := [], psd := st.psd, lib := false }] }
        st.proms.length).state = some false := by
    rw [promAt_append_self]
  rw [handleRejection_settled (fuel) _ _ _ _ hb]

/-- Removing an unhandled entry does not touch the promise heap. -/
theorem promAt_markErrorAsHandled (st : Engine) (pid q : Nat) :
    promAt (markErrorAsHandled st pid) q = promAt st q := rfl

/-- Tick finalization does not touch the promise heap. -/
theorem promAt_finalizePhysicalTick (st : Engine) (q : Nat) :
    promAt (finalizePhysicalTick st) q = promAt st q := rfl

/-- Neither branch of a conditional tick finalization touches the heap. -/
theorem promAt_tick_ite (c : Prop) [Decidable c] (s : Engine) (q : Nat) :
    promAt (if c then finalizePhysicalTick s else s) q = promAt s q := by
  split <;> rfl

/-- Core dispatch fact: when the rejected-branch handler returns a freshly
constructed rejected promise carrying the original reason (the shape built by
the non-matching filtered `catch` and by the rejected branch of `finally`),
the downstream promise ends rejected with that same reason, nothing is
thrown, and — because the reason was pushed onto `rejectingErrors` during the
handler — the source promise is never marked as handled: if it was on the
unhandled list it stays there, or is delivered by the tick finalizer. -/
theorem callListener_reraise_core (fuel : Nat) (st : Engine) (cb : Handler)
    (src down dz lz : Nat) (onF onR : Option Handler) (r : JSVal)
    (hsrc : (promAt st src).state = some false)
    (hrv : (promAt st src).value = r)
    (hdown : promAt st down = { state := none, value := .undef, listeners := [], psd := dz, lib := false })
    (hdown_lt : down < st.proms.length)
    (hrh : ∀ sA : Engine, sA.rejectingErrors = [] → (∀ p, promAt sA p = promAt st p) →
        sA.proms.length = st.proms.length →
        runHandler (fuel + 3) sA cb r
          = ({ sA with
                proms := sA.proms ++ [{ state := some false, value := r, listeners := [], psd := sA.psd, lib := false }],
                rejectingErrors := sA.rejectingErrors ++ [r] }, .ok (.promiseRef sA.proms.length))) :
    (promAt (callListener (fuel + 4) st cb src
        { onFulfilled := onF, onRejected := onR, down := down, psd := lz }).1 down).state
      = some false ∧
    (promAt (callListener (fuel + 4) st cb src
        { onFulfilled := onF, onRejected := onR, down := down, psd := lz }).1 down).value = r ∧
    (callListener (fuel + 4) st cb src
        { onFulfilled := onF, onRejected := onR, down := down, psd := lz }).2 = none ∧
    (src ∈ st.unhandledErrors →
      src ∈ (callListener (fuel + 4) st cb src
          { onFulfilled := onF, onRejected := onR, down := down, psd := lz }).1.unhandledErrors ∨
      (src, r) ∈ (callListener (fuel + 4) st cb src
          { onFulfilled := onF, onRejected := onR, down := down, psd := lz }).1.firedUnhandled) := by
  have hff : ((promAt st src).state = some true) = False := by simp [hsrc]
  rw [callListener]
  simp only [hff, if_false, hrv]
  set stA : Engine := if st.rejectingErrors = [] then st else { st with rejectingErrors := [] } with hstA
  have hA1 : ∀ p, promAt stA p = promAt st p := by
    rw [hstA]; split
    · intro p; rfl
    · intro p; rfl
  have hA2 : stA.rejectingErrors = [] := by
    rw [hstA]; split
    · assumption
    · rfl
  have hA3 : stA.proms.length = st.proms.length := by
    rw [hstA]; split <;> rfl
  have hA4 : stA.unhandledErrors = st.unhandledErrors := by
    rw [hstA]; split <;> rfl
  have hdlA : down < stA.proms.length := by rw [hA3]; exact hdown_lt
  have hC1 : promAt { stA with
      proms := stA.proms ++ [{ state := some false, value := r, listeners := [], psd := stA.psd, lib := false }],
      rejectingErrors := stA.rejectingErrors ++ [r] } down = { state := none, value := JSVal.undef, listeners := [], psd := dz, lib := false } := by
    have h1 : promAt { stA with
      proms := stA.proms ++ [{ state := some false, value := r, listeners := [], psd := stA.psd, lib := false }],
      rejectingErrors := stA.rejectingErrors ++ [r] } down = promAt { stA with
        proms := stA.proms ++ [{ state := some false, value := r, listeners := [], psd := stA.psd, lib := false }] } down :=
      promAt_congr rfl down
    rw [h1, promAt_append_lt _ hdlA, hA1, hdown]
  have hC2 : promAt { stA with
      proms := stA.proms ++ [{ state := some false, value := r, listeners := [], psd := stA.psd, lib := false }],
      rejectingErrors := stA.rejectingErrors ++ [r] } stA.proms.length
      = { state := some false, value := r, listeners := [], psd := stA.psd, lib := false } := by
    have h1 : promAt { stA with
      proms := stA.proms ++ [{ state := some false, value := r, listeners := [], psd := stA.psd, lib := false }],
      rejectingErrors := stA.rejectingErrors ++ [r] } stA.proms.length = promAt { stA with
        proms := stA.proms ++ [{ state := some false, value := r, listeners := [], psd := stA.psd, lib := false }] } stA.proms.length :=
      promAt_congr rfl _
    rw [h1, promAt_append_self]
  have hC3 : down < ({ stA with
      proms := stA.proms ++ [{ state := some false, value := r, listeners := [], psd := stA.psd, lib := false }],
      rejectingErrors := stA.rejectingErrors ++ [r] } : Engine).proms.length := by
    show down < (stA.proms ++ _).length
    rw [List.length_append]
    omega
  obtain ⟨T, hT, hTdown, hTq, hTu, hTlen⟩ := handleRejection_pending_spec fuel { stA with
      proms := stA.proms ++ [{ state := some false, value := r, listeners := [], psd := stA.psd, lib := false }],
      rejectingErrors := stA.rejectingErrors ++ [r] } down r
    (by rw [hC1]) (by rw [hC1]) (by rw [hC1]) hC3
  have hptl2 : propagateToListener (fuel + 2) { stA with
      proms := stA.proms ++ [{ state := some false, value := r, listeners := [], psd := stA.psd, lib := false }],
      rejectingErrors := stA.rejectingErrors ++ [r] } stA.proms.length
      { onFulfilled := none, onRejected := none, down := down, psd := ({ stA with
      proms := stA.proms ++ [{ state := some false, value := r, listeners := [], psd := stA.psd, lib := false }],
      rejectingErrors := stA.rejectingErrors ++ [r] } : Engine).psd } = (T, none) := by
    rw [propagateToListener]
    simp only [hC2]
    exact hT
  have hs1 : (promAt { stA with
      proms := stA.proms ++ [{ state := some false, value := r, listeners := [], psd := stA.psd, lib := false }],
      rejectingErrors := stA.rejectingErrors ++ [r] } down).state.isSome = false := by rw [hC1]; rfl
  have hs2 : (JSVal.promiseRef stA.proms.length = JSVal.promiseRef down) = False := by
    simp only [JSVal.promiseRef.injEq]
    exact eq_false (fun he => (Nat.ne_of_lt hdlA) he.symm)
  have hres : resolveValue (fuel + 3) { stA with
      proms := stA.proms ++ [{ state := some false, value := r, listeners := [], psd := stA.psd, lib := false }],
      rejectingErrors := stA.rejectingErrors ++ [r] } down (.promiseRef stA.proms.length) = (T, none) := by
    rw [resolveValue]
    simp only [hs1, Bool.false_eq_true, if_false, hs2, hC1, hptl2]
    rfl
  have hmm : (r ∈ (stA.rejectingErrors ++ [r])) = True := by simp
  simp only [hrh stA hA2 hA1 hA3, hmm, ite_true, hres]
  refine ⟨?_, ?_, trivial, ?_⟩
  · rw [(decRefOrFinalize_onlyZones (fuel + 3) _ lz).promAt_eq, promAt_tick_ite]
    have hte : promAt { T with numScheduledCalls := T.numScheduledCalls - 1 } down = promAt T down := rfl
    rw [hte, hTdown]
  · rw [(decRefOrFinalize_onlyZones (fuel + 3) _ lz).promAt_eq, promAt_tick_ite]
    have hte : promAt { T with numScheduledCalls := T.numScheduledCalls - 1 } down = promAt T down := rfl
    rw [hte, hTdown]
  · intro hmem
    have hsd : src ≠ down := by
      intro he
      rw [he, hdown] at hsrc
      simp at hsrc
    have hsrcA : src < stA.proms.length := by
      rw [hA3]
      exact promAt_lt_length hsrc
    have hvalT : promAt T src = promAt st src := by
      rw [hTq src hsd]
      have h1 : promAt { stA with
      proms := stA.proms ++ [{ state := some false, value := r, listeners := [], psd := stA.psd, lib := false }],
      rejectingErrors := stA.rejectingErrors ++ [r] } src = promAt { stA with
          proms := stA.proms ++ [{ state := some false, value := r, listeners := [], psd := stA.psd, lib := false }] } src :=
        promAt_congr rfl src
      rw [h1, promAt_append_lt _ hsrcA, hA1]
    have hmemT : src ∈ T.unhandledErrors := by
      rw [hTu]
      split
      · show src ∈ stA.unhandledErrors
        rw [hA4]
        exact hmem
      · refine List.mem_append_left _ ?_
        show src ∈ stA.unhandledErrors
        rw [hA4]
        exact hmem
    have hoz := decRefOrFinalize_onlyZones (fuel + 3)
      (if T.numScheduledCalls - 1 = 0 then
        finalizePhysicalTick { T with numScheduledCalls := T.numScheduledCalls - 1 }
      else { T with numScheduledCalls := T.numScheduledCalls - 1 }) lz
    rw [hoz.2.2.2.1, hoz.2.2.2.2.2.1]
    by_cases hz : T.numScheduledCalls - 1 = 0
    · rw [if_pos hz]
      right
      show (src, r) ∈ ({ T with numScheduledCalls := T.numScheduledCalls - 1 } : Engine).firedUnhandled
        ++ ({ T with numScheduledCalls := T.numScheduledCalls - 1 } : Engine).unhandledErrors.map _
      apply List.mem_append_right
      apply List.mem_map.mpr
      refine ⟨src, hmemT, ?_⟩
      have hv2 : (promAt { { T with numScheduledCalls := T.numScheduledCalls - 1 } with
          unhandledErrors := [] } src).value = r := by
        have h3 : promAt { { T with numScheduledCalls := T.numScheduledCalls - 1 } with
            unhandledErrors := [] } src = promAt T src := rfl
        rw [h3, hvalT, hrv]
      rw [hv2]
    · rw [if_neg hz]
      left
      exact hmemT

/-- Core dispatch fact: a fulfilled-branch handler that returns a
non-thenable value fulfills the downstream promise with that value. -/
theorem callListener_fulfilled_ok_core (fuel : Nat) (st : Engine) (cb : Handler)
    (src down dz lz : Nat) (onF onR : Option Handler) (w v : JSVal)
    (hsrc : (promAt st src).state = some true)
    (hrv : (promAt st src).value = w)
    (hdown : promAt st down = { state := none, value := .undef, listeners := [], psd := dz, lib := false })
    (hdown_lt : down < st.proms.length)
    (hv : ∀ p, v ≠ .promiseRef p)
    (hrh : runHandler (fuel + 3) st cb w = (st, .ok v)) :
    (promAt (callListener (fuel + 4) st cb src
        { onFulfilled := onF, onRejected := onR, down := down, psd := lz }).1 down).state
      = some true ∧
    (promAt (callListener (fuel + 4) st cb src
        { onFulfilled := onF, onRejected := onR, down := down, psd := lz }).1 down).value = v ∧
    (callListener (fuel + 4) st cb src
        { onFulfilled := onF, onRejected := onR, down := down, psd := lz }).2 = none := by
  have htt : ((promAt st src).state = some true) = True := by simp [hsrc]
  rw [callListener]
  obtain ⟨T, hres, hTdown, hTq, hTlen⟩ := resolveValue_fulfill_spec (fuel + 2) st down v
    (by rw [hdown]) (by rw [hdown]) (by rw [hdown]) hdown_lt hv
  rw [show fuel + 2 + 1 = fuel + 3 from rfl] at hres
  simp only [htt, ite_true, hrv, hrh, hres]
  refine ⟨?_, ?_, trivial⟩
  · rw [(decRefOrFinalize_onlyZones (fuel + 3) _ lz).promAt_eq, promAt_tick_ite]
    have hte : promAt { T with numScheduledCalls := T.numScheduledCalls - 1 } down = promAt T down := rfl
    rw [hte, hTdown]
  · rw [(decRefOrFinalize_onlyZones (fuel + 3) _ lz).promAt_eq, promAt_tick_ite]
    have hte : promAt { T with numScheduledCalls := T.numScheduledCalls - 1 } down = promAt T down := rfl
    rw [hte, hTdown]

/-- Core dispatch fact: a fulfilled-branch handler that throws rejects the
downstream promise with the thrown value. -/
theorem callListener_fulfilled_throw_core (fuel : Nat) (st : Engine) (cb : Handler)
    (src down dz lz : Nat) (onF onR : Option Handler) (w e : JSVal)
    (hsrc : (promAt st src).state = some true)
    (hrv : (promAt st src).value = w)
    (hdown : promAt st down = { state := none, value := .undef, listeners := [], psd := dz, lib := false })
    (hdown_lt : down < st.proms.length)
    (hrh : runHandler (fuel + 3) st cb w = (st, .error e)) :
    (promAt (callListener (fuel + 4) st cb src
        { onFulfilled := onF, onRejected := onR, down := down, psd := lz }).1 down).state
      = some false ∧
    (promAt (callListener (fuel + 4) st cb src
        { onFulfilled := onF, onRejected := onR, down := down, psd := lz }).1 down).value = e ∧
    (callListener (fuel + 4) st cb src
        { onFulfilled := onF, onRejected := onR, down := down, psd := lz }).2 = none := by
  have htt : ((promAt st src).state = some true) = True := by simp [hsrc]
  rw [callListener]
  obtain ⟨T, hhr, hTdown, hTq, hTu, hTlen⟩ := handleRejection_pending_spec (fuel + 2) st down e
    (by rw [hdown]) (by rw [hdown]) (by rw [hdown]) hdown_lt
  rw [show fuel + 2 + 1 = fuel + 3 from rfl] at hhr
  simp only [htt, ite_true, hrv, hrh, hhr]
  refine ⟨?_, ?_, trivial⟩
  · rw [(decRefOrFinalize_onlyZones (fuel + 3) _ lz).promAt_eq, promAt_tick_ite]
    have hte : promAt { T with numScheduledCalls := T.numScheduledCalls - 1 } down = promAt T down := rfl
    rw [hte, hTdown]
  · rw [(decRefOrFinalize_onlyZones (fuel + 3) _ lz).promAt_eq, promAt_tick_ite]
    have hte : promAt { T with numScheduledCalls := T.numScheduledCalls - 1 } down = promAt T down := rfl
    rw [hte, hTdown]

/-- Core dispatch fact: a rejected-branch handler that returns a non-thenable
value without re-rejecting marks the error handled and fulfills the
downstream promise with that value. -/
theorem callListener_rejected_ok_core (fuel : Nat) (st : Engine) (cb : Handler)
    (src down dz lz : Nat) (onF onR : Option Handler) (r v : JSVal)
    (hsrc : (promAt st src).state = some false)
    (hrv : (promAt st src).value = r)
    (hdown : promAt st down = { state := none, value := .undef, listeners := [], psd := dz, lib := false })
    (hdown_lt : down < st.proms.length)
    (hv : ∀ p, v ≠ .promiseRef p)
    (hrh : ∀ sA : Engine, sA.rejectingErrors = [] → (∀ p, promAt sA p = promAt st p) →
        sA.proms.length = st.proms.length →
        runHandler (fuel + 3) sA cb r = (sA, .ok v)) :
    (promAt (callListener (fuel + 4) st cb src
        { onFulfilled := onF, onRejected := onR, down := down, psd := lz }).1 down).state
      = some true ∧
    (promAt (callListener (fuel + 4) st cb src
        { onFulfilled := onF, onRejected := onR, down := down, psd := lz }).1 down).value = v ∧
    (callListener (fuel + 4) st cb src
        { onFulfilled := onF, onRejected := onR, down := down, psd := lz }).2 = none := by
  have hff : ((promAt st src).state = some true) = False := by simp [hsrc]
  rw [callListener]
  simp only [hff, if_false, hrv]
  set stA : Engine := if st.rejectingErrors = [] then st else { st with rejectingErrors := [] } with hstA
  have hA1 : ∀ p, promAt stA p = promAt st p := by
    rw [hstA]; split
    · intro p; rfl
    · intro p; rfl
  have hA2 : stA.rejectingErrors = [] := by
    rw [hstA]; split
    · assumption
    · rfl
  have hA3 : stA.proms.length = st.proms.length := by
    rw [hstA]; split <;> rfl
  have hnm : (r ∈ stA.rejectingErrors) = False := by
    rw [hA2]
    simp
  obtain ⟨T, hres, hTdown, hTq, hTlen⟩ := resolveValue_fulfill_spec (fuel + 2)
    (markErrorAsHandled stA src) down v
    (by rw [promAt_markErrorAsHandled, hA1, hdown])
    (by rw [promAt_markErrorAsHandled, hA1, hdown])
    (by rw [promAt_markErrorAsHandled, hA1, hdown])
    (by
      show down < stA.proms.length
      rw [hA3]
      exact hdown_lt) hv
  rw [show fuel + 2 + 1 = fuel + 3 from rfl] at hres
  simp only [hrh stA hA2 hA1 hA3, hnm, Bool.false_eq_true, if_false, hres]
  refine ⟨?_, ?_, trivial⟩
  · rw [(decRefOrFinalize_onlyZones (fuel + 3) _ lz).promAt_eq, promAt_tick_ite]
    have hte : promAt { T with numScheduledCalls := T.numScheduledCalls - 1 } down = promAt T down := rfl
    rw [hte, hTdown, promAt_markErrorAsHandled]
  · rw [(decRefOrFinalize_onlyZones (fuel + 3) _ lz).promAt_eq, promAt_tick_ite]
    have hte : promAt { T with numScheduledCalls := T.numScheduledCalls - 1 } down = promAt T down := rfl
    rw [hte, hTdown, promAt_markErrorAsHandled]

/-- Core dispatch fact: a rejected-branch handler that throws rejects the
downstream promise with the thrown value. -/
theorem callListener_rejected_throw_core (fuel : Nat) (st : Engine) (cb : Handler)
    (src down dz lz : Nat) (onF onR : Option Handler) (r e : JSVal)
    (hsrc : (promAt st src).state = some false)
    (hrv : (promAt st src).value = r)
    (hdown : promAt st down = { state := none, value := .undef, listeners := [], psd := dz, lib := false })
    (hdown_lt : down < st.proms.length)
    (hrh : ∀ sA : Engine, sA.rejectingErrors = [] → (∀ p, promAt sA p = promAt st p) →
        sA.proms.length = st.proms.length →
        runHandler (fuel + 3) sA cb r = (sA, .error e)) :
    (promAt (callListener (fuel + 4) st cb src
        { onFulfilled := onF, onRejected := onR, down := down, psd := lz }).1 down).state
      = some false ∧
    (promAt (callListener (fuel + 4) st cb src
        { onFulfilled := onF, onRejected := onR, down := down, psd := lz }).1 down).value = e ∧
    (callListener (fuel + 4) st cb src
        { onFulfilled := onF, onRejected := onR, down := down, psd := lz }).2 = none := by
  have hff : ((promAt st src).state = some true) = False := by simp [hsrc]
  rw [callListener]
  simp only [hff, if_false, hrv]
  set stA : Engine := if st.rejectingErrors = [] then st else { st with rejectingErrors := [] } with hstA
  have hA1 : ∀ p, promAt stA p = promAt st p := by
    rw [hstA]; split
    · intro p; rfl
    · intro p; rfl
  have hA2 : stA.rejectingErrors = [] := by
    rw [hstA]; split
    · assumption
    · rfl
  have hA3 : stA.proms.length = st.proms.length := by
    rw [hstA]; split <;> rfl
  obtain ⟨T, hhr, hTdown, hTq, hTu, hTlen⟩ := handleRejection_pending_spec (fuel + 2) stA down e
    (by rw [hA1, hdown]) (by rw [hA1, hdown]) (by rw [hA1, hdown])
    (by
      show down < stA.proms.length
      rw [hA3]
      exact hdown_lt)
  rw [show fuel + 2 + 1 = fuel + 3 from rfl] at hhr
  simp only [hrh stA hA2 hA1 hA3, hhr]
  refine ⟨?_, ?_, trivial⟩
  · rw [(decRefOrFinalize_onlyZones (fuel + 3) _ lz).promAt_eq, promAt_tick_ite]
    have hte : promAt { T with numScheduledCalls := T.numScheduledCalls - 1 } down = promAt T down := rfl
    rw [hte, hTdown, hA1]
  · rw [(decRefOrFinalize_onlyZones (fuel + 3) _ lz).promAt_eq, promAt_tick_ite]
    have hte : promAt { T with numScheduledCalls := T.numScheduledCalls - 1 } down = promAt T down := rfl
    rw [hte, hTdown, hA1]

/-- The guard `err && err.name === type` of the string-filtered `catch` is
equivalent to `err.name === type` alone: every falsy value of the model has
no `name` property. -/
theorem catch_name_guard (r : JSVal) (nm : String) :
    (truthy r ∧ nameOf r = some nm) ↔ nameOf r = some nm := by
  cases r <;> simp [truthy, nameOf]

/-- Claim C6: for a rejected promise dispatched to a two-argument
`catch(filter, handler)` listener: with a constructor filter, the handler
runs exactly when the reason is an instance of that constructor (conjuncts 1
and 2: a non-matching reason re-raises the original reason unchanged onto the
returned promise, a matching one settles the returned promise with the
handler's outcome); with a string filter, the handler runs exactly when the
truthiness-guarded `reason.name` equals the string (conjuncts 3 and 4), and
that guard is equivalent to plain `reason.name` equality (conjunct 5). -/
theorem catch_filter_dispatch (fuel : Nat) (st : Engine) (src down dz lz : Nat) (r : JSVal)
    (K nm : String) (h1 h2 : JSVal → Except JSVal JSVal) (v1 v2 : JSVal)
    (hsrc : (promAt st src).state = some false)
    (hrv : (promAt st src).value = r)
    (hdown : promAt st down = { state := none, value := .undef, listeners := [], psd := dz, lib := false })
    (hdown_lt : down < st.proms.length) :
    (instanceOf r K = false →
      (promAt (callListener (fuel + 4) st (.catchCtor K h1) src
          { onFulfilled := none, onRejected := some (.catchCtor K h1), down := down, psd := lz }).1 down).state
        = some false ∧
      (promAt (callListener (fuel + 4) st (.catchCtor K h1) src
          { onFulfilled := none, onRejected := some (.catchCtor K h1), down := down, psd := lz }).1 down).value = r) ∧
    (instanceOf r K = true → h1 r = .ok v1 → (∀ p, v1 ≠ .promiseRef p) →
      (promAt (callListener (fuel + 4) st (.catchCtor K h1) src
          { onFulfilled := none, onRejected := some (.catchCtor K h1), down := down, psd := lz }).1 down).state
        = some true ∧
      (promAt (callListener (fuel + 4) st (.catchCtor K h1) src
          { onFulfilled := none, onRejected := some (.catchCtor K h1), down := down, psd := lz }).1 down).value = v1) ∧
    (¬ (truthy r ∧ nameOf r = some nm) →
      (promAt (callListener (fuel + 4) st (.catchName nm h2) src
          { onFulfilled := none, onRejected := some (.catchName nm h2), down := down, psd := lz }).1 down).state
        = some false ∧
      (promAt (callListener (fuel + 4) st (.catchName nm h2) src
          { onFulfilled := none, onRejected := some (.catchName nm h2), down := down, psd := lz }).1 down).value = r) ∧
    ((truthy r ∧ nameOf r = some nm) → h2 r = .ok v2 → (∀ p, v2 ≠ .promiseRef p) →
      (promAt (callListener (fuel + 4) st (.catchName nm h2) src
          { onFulfilled := none, onRejected := some (.catchName nm h2), down := down, psd := lz }).1 down).state
        = some true ∧
      (promAt (callListener (fuel + 4) st (.catchName nm h2) src
          { onFulfilled := none, onRejected := some (.catchName nm h2), down := down, psd := lz }).1 down).value = v2) ∧
    ((truthy r ∧ nameOf r = some nm) ↔ nameOf r = some nm) := by
  refine ⟨?_, ?_, ?_, ?_, catch_name_guard r nm⟩
  · intro hK
    have core := callListener_reraise_core fuel st (.catchCtor K h1) src down dz lz
      none (some (.catchCtor K h1)) r hsrc hrv hdown hdown_lt ?_
    · exact ⟨core.1, core.2.1⟩
    · intro sA hre hAp hAl
      rw [runHandler]
      rw [if_neg (by rw [hK]; exact Bool.false_ne_true)]
      rw [PromiseReject_spec fuel sA r]
  · intro hK hh hv
    have core := callListener_rejected_ok_core fuel st (.catchCtor K h1) src down dz lz
      none (some (.catchCtor K h1)) r v1 hsrc hrv hdown hdown_lt hv ?_
    · exact ⟨core.1, core.2.1⟩
    · intro sA hre hAp hAl
      rw [runHandler]
      rw [if_pos (by rw [hK])]
      rw [hh]
  · intro hN
    have core := callListener_reraise_core fuel st (.catchName nm h2) src down dz lz
      none (some (.catchName nm h2)) r hsrc hrv hdown hdown_lt ?_
    · exact ⟨core.1, core.2.1⟩
    · intro sA hre hAp hAl
      rw [runHandler]
      rw [if_neg hN]
      rw [PromiseReject_spec fuel sA r]
  · intro hN hh hv
    have core := callListener_rejected_ok_core fuel st (.catchName nm h2) src down dz lz
      none (some (.catchName nm h2)) r v2 hsrc hrv hdown hdown_lt hv ?_
    · exact ⟨core.1, core.2.1⟩
    · intro sA hre hAp hAl
      rw [runHandler]
      rw [if_pos hN]
      rw [hh]

/-- Witness for claim C6: `Promise.reject(new RangeError('x'))` dispatched to
`catch(TypeError, handler)` re-raises the RangeError. -/
theorem catch_filter_dispatch_witness :
    (promAt (thenOp 20 (PromiseReject 20 freshEngine
        (.err ["RangeError", "Error"] "RangeError" "x")).1 0 none
        (some (.catchCtor "TypeError" (fun _ => .ok (.num 99))))).1 0).state = some false ∧
    (promAt (callListener 24 (thenOp 20 (PromiseReject 20 freshEngine
        (.err ["RangeError", "Error"] "RangeError" "x")).1 0 none
        (some (.catchCtor "TypeError" (fun _ => .ok (.num 99))))).1
        (.catchCtor "TypeError" (fun _ => .ok (.num 99))) 0
        { onFulfilled := none, onRejected := some (.catchCtor "TypeError" (fun _ => .ok (.num 99))),
          down := 1, psd := 0 }).1 1).value
      = .err ["RangeError", "Error"] "RangeError" "x" :=
  ⟨rfl, ((catch_filter_dispatch 20 (thenOp 20 (PromiseReject 20 freshEngine
      (.err ["RangeError", "Error"] "RangeError" "x")).1 0 none
      (some (.catchCtor "TypeError" (fun _ => .ok (.num 99))))).1 0 1 0 0
      (.err ["RangeError", "Error"] "RangeError" "x") "TypeError" "nm"
      (fun _ => .ok (.num 99)) (fun _ => .ok (.num 99)) (.num 99) (.num 99)
      rfl rfl rfl (by decide)).1 rfl).2⟩

/-- Claim C7 counterexample: `Promise.resolve(1).finally(fn)` where `fn`
throws `boom`. The source promise is fulfilled with `1`, and `finally`
enqueues exactly one microtask dispatching its fulfilled-branch listener;
running that dispatch rejects the promise returned by `finally` with `boom`
instead of settling it with the original outcome (fulfillment with `1`),
refuting the claim for throwing callbacks. -/
theorem finally_throwing_callback_overrides_outcome :
    (promAt (finallyOp 20 (promiseResolveStatic freshEngine (.num 1)).1 0
        (some (.err ["Error"] "Error" "boom"))).1 0).state = some true ∧
    (promAt (finallyOp 20 (promiseResolveStatic freshEngine (.num 1)).1 0
        (some (.err ["Error"] "Error" "boom"))).1 0).value = .num 1 ∧
    (finallyOp 20 (promiseResolveStatic freshEngine (.num 1)).1 0
        (some (.err ["Error"] "Error" "boom"))).1.queue
      = [.callL (.finallyFulfilled (some (.err ["Error"] "Error" "boom"))) 0
          { onFulfilled := some (.finallyFulfilled (some (.err ["Error"] "Error" "boom"))),
            onRejected := some (.finallyRejected (some (.err ["Error"] "Error" "boom"))),
            down := 1, psd := 0 }] ∧
    (promAt (callListener 24 (finallyOp 20 (promiseResolveStatic freshEngine (.num 1)).1 0
        (some (.err ["Error"] "Error" "boom"))).1
        (.finallyFulfilled (some (.err ["Error"] "Error" "boom"))) 0
        { onFulfilled := some (.finallyFulfilled (some (.err ["Error"] "Error" "boom"))),
          onRejected := some (.finallyRejected (some (.err ["Error"] "Error" "boom"))),
          down := 1, psd := 0 }).1 1).state = some false ∧
    (promAt (callListener 24 (finallyOp 20 (promiseResolveStatic freshEngine (.num 1)).1 0
        (some (.err ["Error"] "Error" "boom"))).1
        (.finallyFulfilled (some (.err ["Error"] "Error" "boom"))) 0
        { onFulfilled := some (.finallyFulfilled (some (.err ["Error"] "Error" "boom"))),
          onRejected := some (.finallyRejected (some (.err ["Error"] "Error" "boom"))),
          down := 1, psd := 0 }).1 1).value = .err ["Error"] "Error" "boom" := by
  have core := callListener_fulfilled_throw_core 20
    (finallyOp 20 (promiseResolveStatic freshEngine (.num 1)).1 0
      (some (.err ["Error"] "Error" "boom"))).1
    (.finallyFulfilled (some (.err ["Error"] "Error" "boom"))) 0 1 0 0
    (some (.finallyFulfilled (some (.err ["Error"] "Error" "boom"))))
    (some (.finallyRejected (some (.err ["Error"] "Error" "boom"))))
    (.num 1) (.err ["Error"] "Error" "boom") rfl rfl rfl (by decide) rfl
  exact ⟨rfl, rfl, rfl, core.1, core.2.1⟩

/-- Claim C7 (amended): `finally(fn)` runs `fn` on either settlement; when
`fn` returns normally, the promise returned by `finally` settles with the
original outcome — same fulfillment value (conjunct 1), or rejection with the
same reason (conjunct 2) — and the rejection is never consumed: the source
stays on the unhandled list or is delivered to the unhandled-rejection
handler. When `fn` throws, the returned promise instead rejects with the
exception thrown by `fn` (conjuncts 3 and 4). -/
theorem finally_forwards_outcome (fuel : Nat) (st : Engine) (src down dz lz : Nat) (w r e : JSVal)
    (hdown : promAt st down = { state := none, value := .undef, listeners := [], psd := dz, lib := false })
    (hdown_lt : down < st.proms.length) :
    ((promAt st src).state = some true → (promAt st src).value = w → (∀ p, w ≠ .promiseRef p) →
      (promAt (callListener (fuel + 4) st (.finallyFulfilled none) src
          { onFulfilled := some (.finallyFulfilled none), onRejected := some (.finallyRejected none),
            down := down, psd := lz }).1 down).state = some true ∧
      (promAt (callListener (fuel + 4) st (.finallyFulfilled none) src
          { onFulfilled := some (.finallyFulfilled none), onRejected := some (.finallyRejected none),
            down := down, psd := lz }).1 down).value = w) ∧
    ((promAt st src).state = some false → (promAt st src).value = r →
      (promAt (callListener (fuel + 4) st (.finallyRejected none) src
          { onFulfilled := some (.finallyFulfilled none), onRejected := some (.finallyRejected none),
            down := down, psd := lz }).1 down).state = some false ∧
      (promAt (callListener (fuel + 4) st (.finallyRejected none) src
          { onFulfilled := some (.finallyFulfilled none), onRejected := some (.finallyRejected none),
            down := down, psd := lz }).1 down).value = r ∧
      (src ∈ st.unhandledErrors →
        src ∈ (callListener (fuel + 4) st (.finallyRejected none) src
            { onFulfilled := some (.finallyFulfilled none), onRejected := some (.finallyRejected none),
              down := down, psd := lz }).1.unhandledErrors ∨
        (src, r) ∈ (callListener (fuel + 4) st (.finallyRejected none) src
            { onFulfilled := some (.finallyFulfilled none), onRejected := some (.finallyRejected none),
              down := down, psd := lz }).1.firedUnhandled)) ∧
    ((promAt st src).state = some true → (promAt st src).value = w →
      (promAt (callListener (fuel + 4) st (.finallyFulfilled (some e)) src
          { onFulfilled := some (.finallyFulfilled (some e)), onRejected := some (.finallyRejected (some e)),
            down := down, psd := lz }).1 down).state = some false ∧
      (promAt (callListener (fuel + 4) st (.finallyFulfilled (some e)) src
          { onFulfilled := some (.finallyFulfilled (some e)), onRejected := some (.finallyRejected (some e)),
            down := down, psd := lz }).1 down).value = e) ∧
    ((promAt st src).state = some false → (promAt st src).value = r →
      (promAt (callListener (fuel + 4) st (.finallyRejected (some e)) src
          { onFulfilled := some (.finallyFulfilled (some e)), onRejected := some (.finallyRejected (some e)),
            down := down, psd := lz }).1 down).state = some false ∧
      (promAt (callListener (fuel + 4) st (.finallyRejected (some e)) src
          { onFulfilled := some (.finallyFulfilled (some e)), onRejected := some (.finallyRejected (some e)),
            down := down, psd := lz }).1 down).value = e) := by
  refine ⟨?_, ?_, ?_, ?_⟩
  · intro hs hv hw
    have core := callListener_fulfilled_ok_core fuel st (.finallyFulfilled none) src down dz lz
      (some (.finallyFulfilled none)) (some (.finallyRejected none)) w w hs hv hdown hdown_lt hw
      (by rw [runHandler])
    exact ⟨core.1, core.2.1⟩
  · intro hs hv
    have core := callListener_reraise_core fuel st (.finallyRejected none) src down dz lz
      (some (.finallyFulfilled none)) (some (.finallyRejected none)) r hs hv hdown hdown_lt ?_
    · exact ⟨core.1, core.2.1, core.2.2.2⟩
    · intro sA hre hAp hAl
      rw [runHandler]
      rw [PromiseReject_spec fuel sA r]
  · intro hs hv
    have core := callListener_fulfilled_throw_core fuel st (.finallyFulfilled (some e)) src down dz lz
      (some (.finallyFulfilled (some e))) (some (.finallyRejected (some e))) w e hs hv hdown hdown_lt
      (by rw [runHandler])
    exact ⟨core.1, core.2.1⟩
  · intro hs hv
    have core := callListener_rejected_throw_core fuel st (.finallyRejected (some e)) src down dz lz
      (some (.finallyFulfilled (some e))) (some (.finallyRejected (some e))) r e hs hv hdown hdown_lt
      (fun sA hre hAp hAl => by rw [runHandler])
    exact ⟨core.1, core.2.1⟩

/-- Witness for the amended claim C7: a rejected promise dispatched through
the rejected branch of `finally` forwards its reason. -/
theorem finally_forwards_outcome_witness :
    (promAt (thenOp 20 (PromiseReject 20 freshEngine (.err ["Error"] "Error" "oops")).1 0
        (some (.finallyFulfilled none)) (some (.finallyRejected none))).1 0).state = some false ∧
    (promAt (callListener 24 (thenOp 20 (PromiseReject 20 freshEngine
        (.err ["Error"] "Error" "oops")).1 0
        (some (.finallyFulfilled none)) (some (.finallyRejected none))).1
        (.finallyRejected none) 0
        { onFulfilled := some (.finallyFulfilled none), onRejected := some (.finallyRejected none),
          down := 1, psd := 0 }).1 1).value = .err ["Error"] "Error" "oops" :=
  ⟨rfl, ((finally_forwards_outcome 20 (thenOp 20 (PromiseReject 20 freshEngine
      (.err ["Error"] "Error" "oops")).1 0
      (some (.finallyFulfilled none)) (some (.finallyRejected none))).1 0 1 0 0
      .undef (.err ["Error"] "Error" "oops") .undef rfl (by decide)).2.1 rfl rfl).2.1⟩

/-! ## C5 -/


/-- Pointwise-equal predicates give equal `any` results. -/
theorem list_any_congr {α : Type} {p q : α → Bool} :
    ∀ {l : List α}, (∀ x ∈ l, p x = q x) → l.any p = l.any q
  | [], _ => rfl
  | x :: xs, h => by
    simp only [List.any_cons]
    rw [h x (List.mem_cons_self x xs), list_any_congr (fun y hy => h y (List.mem_cons_of_mem x hy))]

/-- The duplicate check of the unhandled discipline tests membership of the reason among the recorded reasons. -/
theorem addUnhandledEntry_snd_mem (l : List (Nat × JSVal)) (r : JSVal) :
    (l.any (fun q => decide (q.2 = r)) = true) ↔ r ∈ l.map Prod.snd := by
  rw [List.any_eq_true]
  constructor
  · rintro ⟨x, hx, hpx⟩
    exact List.mem_map.mpr ⟨x, hx, of_decide_eq_true hpx⟩
  · rintro hr
    obtain ⟨x, hx, hxr⟩ := List.mem_map.mp hr
    exact ⟨x, hx, decide_eq_true hxr⟩

/-- After adding an entry its reason is always recorded. -/
theorem addUnhandledEntry_snd_self (l : List (Nat × JSVal)) (n0 : Nat) (r : JSVal) :
    r ∈ (addUnhandledEntry l n0 r).map Prod.snd := by
  rw [addUnhandledEntry]
  split
  · exact (addUnhandledEntry_snd_mem l r).mp (by assumption)
  · rw [List.map_append]
    exact List.mem_append_right _ (by simp)

/-- The pure discipline never removes entries. -/
theorem unhandledModel_mono : ∀ (rs : List JSVal) (l : List (Nat × JSVal)) (n0 : Nat)
    (x : Nat × JSVal), x ∈ l → x ∈ unhandledModel l n0 rs
  | [], _, _, _, hx => hx
  | r :: rs, l, n0, x, hx => by
    rw [unhandledModel]
    apply unhandledModel_mono rs _ _ _
    rw [addUnhandledEntry]
    split
    · exact hx
    · exact List.mem_append_left _ hx

/-- Characterization of the recorded entries: each either was present initially or records the first event carrying its reason, with every earlier event in the sequence carrying a different reason. -/
theorem unhandledModel_mem : ∀ (rs : List JSVal) (l : List (Nat × JSVal)) (n0 pid : Nat)
    (r : JSVal), (pid, r) ∈ unhandledModel l n0 rs →
    (pid, r) ∈ l ∨ (r ∉ l.map Prod.snd ∧
      ∃ i, pid = n0 + i ∧ rs[i]? = some r ∧ ∀ j < i, rs[j]? ≠ some r)
  | [], l, n0, pid, r, hm => Or.inl hm
  | r0 :: rs, l, n0, pid, r, hm => by
    rw [unhandledModel] at hm
    rcases unhandledModel_mem rs _ _ _ _ hm with hin | ⟨hnot, i, hpid, hget, hfirst⟩
    · rw [addUnhandledEntry] at hin
      split at hin
      · exact Or.inl hin
      · rcases List.mem_append.mp hin with h1 | h2
        · exact Or.inl h1
        · rename_i hcond
          simp only [List.mem_singleton, Prod.mk.injEq] at h2
          obtain ⟨hpid, hr⟩ := h2
          refine Or.inr ⟨?_, 0, by omega, ?_, fun j hj => absurd hj (Nat.not_lt_zero j)⟩
          · intro hmem
            rw [hr] at hmem
            exact hcond ((addUnhandledEntry_snd_mem l r0).mpr hmem)
          · rw [List.getElem?_cons_zero, hr]
    · right
      constructor
      · intro hmem
        apply hnot
        rw [addUnhandledEntry]
        split
        · exact hmem
        · rw [List.map_append]
          exact List.mem_append_left _ hmem
      · refine ⟨i + 1, by omega, by simpa using hget, ?_⟩
        intro j hj
        cases j with
        | zero =>
          simp only [List.getElem?_cons_zero]
          intro hc
          injection hc with hc
          rw [hc] at hnot
          exact hnot (addUnhandledEntry_snd_self l n0 r)
        | succ j2 =>
          simp only [List.getElem?_cons_succ]
          exact hfirst j2 (by omega)

/-- The recorded reasons stay pairwise distinct. -/
theorem unhandledModel_snd_nodup : ∀ (rs : List JSVal) (l : List (Nat × JSVal)) (n0 : Nat),
    (l.map Prod.snd).Nodup → ((unhandledModel l n0 rs).map Prod.snd).Nodup
  | [], _, _, h => h
  | r :: rs, l, n0, h => by
    rw [unhandledModel]
    apply unhandledModel_snd_nodup
    rw [addUnhandledEntry]
    split
    · exact h
    · rename_i hcond
      have hr : r ∉ l.map Prod.snd := fun hm => hcond ((addUnhandledEntry_snd_mem l r).mpr hm)
      rw [List.map_append]
      simp [List.nodup_append, h, hr]

/-- Every reason that occurs in the sequence ends up recorded by some promise. -/
theorem unhandledModel_complete : ∀ (rs : List JSVal) (l : List (Nat × JSVal)) (n0 : Nat)
    (r : JSVal), r ∈ rs → ∃ pid, (pid, r) ∈ unhandledModel l n0 rs
  | r0 :: rs, l, n0, r, hr => by
    rw [unhandledModel]
    rcases List.mem_cons.mp hr with heq | hin
    · subst heq
      obtain ⟨x, hx, hx2⟩ := List.mem_map.mp (addUnhandledEntry_snd_self l n0 r)
      refine ⟨x.1, unhandledModel_mono rs _ _ _ ?_⟩
      have hxx : (x.1, r) = x := by
        rw [← hx2]
      rw [hxx]
      exact hx
    · exact unhandledModel_complete rs _ _ r hin

/-- Recorded promise ids index into the event sequence. -/
theorem unhandledModel_fst_lt (rs : List JSVal) (pid : Nat) (r : JSVal)
    (h : (pid, r) ∈ unhandledModel [] 0 rs) : pid < rs.length := by
  rcases unhandledModel_mem rs [] 0 pid r h with h1 | ⟨_, i, hpid, hget, _⟩
  · cases h1
  · have h2 := (List.getElem?_eq_some.mp hget).1
    omega

/-- Unfolding one trailing event of the pure discipline. -/
theorem unhandledModel_append : ∀ (xs : List JSVal) (l : List (Nat × JSVal)) (n0 : Nat)
    (y : JSVal), unhandledModel l n0 (xs ++ [y])
      = addUnhandledEntry (unhandledModel l n0 xs) (n0 + xs.length) y
  | [], l, n0, y => by simp [unhandledModel]
  | x :: xs, l, n0, y => by
    rw [List.cons_append, unhandledModel, unhandledModel, unhandledModel_append xs _ _ y]
    congr 1
    simp
    omega

/-- One engine rejection event preserves the correspondence invariant: the fresh promise is rejected with its reason and the engine unhandled list evolves exactly like the pure discipline (added only when no listed promise carries the same reason). -/
theorem rejectFreshPromise_step (fuel : Nat) (st : Engine) (r : JSVal) (processed : List JSVal)
    (hinv : UnhandledInv st processed) :
    UnhandledInv (rejectFreshPromise (fuel + 5) st r) (processed ++ [r]) := by
  obtain ⟨hlen, hvals, hmap⟩ := hinv
  have hnp : newPromise (fuel + 5) st .noopExec
      = (bumpZoneRef { st with proms := st.proms ++
          [{ state := none, value := JSVal.undef, listeners := [], psd := st.psd, lib := false }] }
          st.psd 1, st.proms.length, none) := by
    simp only [newPromise, executePromiseTask, runExecutor]
  set B : Engine := bumpZoneRef { st with proms := st.proms ++
      [{ state := none, value := JSVal.undef, listeners := [], psd := st.psd, lib := false }] }
      st.psd 1 with hB
  have hfresh : promAt B st.proms.length
      = { state := none, value := JSVal.undef, listeners := [], psd := st.psd, lib := false } := by
    rw [hB, promAt_bumpZoneRef, promAt_append_self]
  have hBq : ∀ q, q < st.proms.length → promAt B q = promAt st q := by
    intro q hq
    rw [hB, promAt_bumpZoneRef, promAt_append_lt _ hq]
  have hBlen : B.proms.length = st.proms.length + 1 := by
    rw [hB, bumpZoneRef_proms]
    simp
  obtain ⟨T, hT, hTpid, hTq, hTu, hTlen⟩ := handleRejection_pending_spec (fuel + 4) B
    st.proms.length r (by rw [hfresh]) (by rw [hfresh]) (by rw [hfresh]) (by omega)
  rw [show fuel + 4 + 1 = fuel + 5 from rfl] at hT
  have hres : rejectFreshPromise (fuel + 5) st r = T := by
    simp only [rejectFreshPromise, hnp, hT]
  rw [hres]
  have hqlt : ∀ q, q ∈ st.unhandledErrors → q < st.proms.length := by
    intro q hq
    have hq2 : (q, (promAt st q).value) ∈ unhandledModel [] 0 processed := by
      rw [← hmap]
      exact List.mem_map_of_mem _ hq
    have := unhandledModel_fst_lt processed q _ hq2
    omega
  refine ⟨?_, ?_, ?_⟩
  · rw [hTlen, hBlen, hlen]
    simp
  · intro i hi
    rw [List.length_append, List.length_singleton] at hi
    rcases Nat.lt_or_ge i processed.length with hilt | hige
    · have hine : i ≠ st.proms.length := by omega
      rw [hTq i hine, hBq i (by omega), List.getElem?_append]
      rw [if_pos hilt]
      exact hvals i hilt
    · have hieq : i = processed.length := by omega
      subst hieq
      have hpe : processed.length = st.proms.length := hlen.symm
      rw [hpe, hTpid, hfresh]
      constructor
      · rfl
      · rw [← hpe, List.getElem?_concat_length]
  · rw [hTu]
    have hcond : (B.unhandledErrors.any fun q => decide ((promAt
        (settleProm { B with rejectingErrors := B.rejectingErrors ++ [r] } st.proms.length false r)
          q).value = r))
        = ((unhandledModel [] 0 processed).any fun e => decide (e.2 = r)) := by
      have h1 : (B.unhandledErrors.any fun q => decide ((promAt
          (settleProm { B with rejectingErrors := B.rejectingErrors ++ [r] } st.proms.length false r)
            q).value = r))
          = (st.unhandledErrors.any fun q => decide ((promAt st q).value = r)) := by
        apply list_any_congr
        intro q hq
        have hql : q < st.proms.length := hqlt q hq
        have h2 : promAt (settleProm { B with rejectingErrors := B.rejectingErrors ++ [r] }
            st.proms.length false r) q = promAt st q := by
          rw [settleProm, promAt_setProm_ne _ (by omega)]
          exact (hBq q hql : promAt B q = promAt st q)
        rw [h2]
      rw [h1, ← hmap]
      generalize st.unhandledErrors = L
      induction L with
      | nil => rfl
      | cons a as ih => simp only [List.map_cons, List.any_cons, ih]
    rw [hcond]
    rw [unhandledModel_append, addUnhandledEntry]
    by_cases hc : ((unhandledModel [] 0 processed).any fun e => decide (e.2 = r)) = true
    · rw [if_pos hc, if_pos hc]
      rw [← hmap]
      apply List.map_congr_left
      intro q hq
      have hql : q < st.proms.length := hqlt q hq
      rw [hTq q (by omega), hBq q hql]
    · rw [if_neg hc, if_neg hc, List.map_append, ← hmap]
      have hBu : B.unhandledErrors = st.unhandledErrors := by
        rw [hB, bumpZoneRef, setZone]
      have h3 : List.map (fun q => (q, (promAt T q).value)) st.unhandledErrors
          = List.map (fun q => (q, (promAt st q).value)) st.unhandledErrors := by
        apply List.map_congr_left
        intro q hq
        have hql : q < st.proms.length := hqlt q hq
        rw [hTq q (by omega), hBq q hql]
      rw [hBu, h3]
      congr 1
      simp only [List.map_cons, List.map_nil, hTpid]
      simp [hlen]

/-- The correspondence invariant is preserved along any sequence of rejection events. -/
theorem rejectSequence_inv (fuel : Nat) : ∀ (rs : List JSVal) (st : Engine)
    (processed : List JSVal), UnhandledInv st processed →
    UnhandledInv (rejectSequence (fuel + 5) st rs) (processed ++ rs)
  | [], st, processed, h => by
    rw [rejectSequence, List.append_nil]
    exact h
  | r :: rs, st, processed, h => by
    rw [rejectSequence]
    have h2 := rejectSequence_inv fuel rs _ (processed ++ [r])
      (rejectFreshPromise_step fuel st r processed h)
    rwa [List.append_assoc] at h2

/-- The fresh engine satisfies the correspondence invariant with no processed reasons. -/
theorem unhandledInv_fresh : UnhandledInv freshEngine [] := by
  refine ⟨rfl, ?_, rfl⟩
  intro i hi
  simp at hi

/-- Claim C5: running any sequence of rejections (each a fresh promise whose
reject capability is invoked with that event's reason), the global
unhandled-rejection list with the values of its promises is exactly the pure
first-per-reason discipline `unhandledModel` (conjunct 1): a promise is added
only when no listed promise carries the same reason. Hence the list holds at
most one promise per distinct reason (conjunct 2), every listed promise is
the first — root-cause — promise rejected with its reason and later
rejections with the same reason reference are suppressed (conjunct 3), while
every distinct reason is recorded by some promise (conjunct 4). -/
theorem unhandled_list_keyed_by_reason (fuel : Nat) (reasons : List JSVal) :
    (rejectSequence (fuel + 5) freshEngine reasons).unhandledErrors.map
        (fun q => (q, (promAt (rejectSequence (fuel + 5) freshEngine reasons) q).value))
      = unhandledModel [] 0 reasons ∧
    ((rejectSequence (fuel + 5) freshEngine reasons).unhandledErrors.map
        (fun q => (promAt (rejectSequence (fuel + 5) freshEngine reasons) q).value)).Nodup ∧
    (∀ pid r, (pid, r) ∈ unhandledModel ([] : List (Nat × JSVal)) 0 reasons →
      reasons[pid]? = some r ∧ ∀ j < pid, reasons[j]? ≠ some r) ∧
    (∀ r, r ∈ reasons → ∃ pid, (pid, r) ∈ unhandledModel ([] : List (Nat × JSVal)) 0 reasons) := by
  have hinv := rejectSequence_inv fuel reasons freshEngine [] unhandledInv_fresh
  rw [List.nil_append] at hinv
  obtain ⟨hlen, hvals, hmap⟩ := hinv
  refine ⟨hmap, ?_, ?_, ?_⟩
  · have h1 : (rejectSequence (fuel + 5) freshEngine reasons).unhandledErrors.map
        (fun q => (promAt (rejectSequence (fuel + 5) freshEngine reasons) q).value)
        = ((rejectSequence (fuel + 5) freshEngine reasons).unhandledErrors.map
            (fun q => (q, (promAt (rejectSequence (fuel + 5) freshEngine reasons) q).value))).map
              Prod.snd := by
      rw [List.map_map]
      rfl
    rw [h1, hmap]
    exact unhandledModel_snd_nodup reasons [] 0 (by simp)
  · intro pid r hm
    rcases unhandledModel_mem reasons [] 0 pid r hm with h1 | ⟨_, i, hpid, hget, hfirst⟩
    · cases h1
    · have hpi : pid = i := by omega
      subst hpi
      exact ⟨hget, hfirst⟩
  · exact fun r hr => unhandledModel_complete reasons [] 0 r hr

/-- Witness for claim C5 on the sequence a, b, a: the third rejection is
suppressed and the list records the first promise per reason. -/
theorem unhandled_list_keyed_by_reason_witness :
    (rejectSequence 5 freshEngine [.str "a", .str "b", .str "a"]).unhandledErrors.map
        (fun q => (q, (promAt (rejectSequence 5 freshEngine
          [.str "a", .str "b", .str "a"]) q).value))
      = unhandledModel [] 0 [.str "a", .str "b", .str "a"] ∧
    unhandledModel [] 0 [JSVal.str "a", JSVal.str "b", JSVal.str "a"]
      = [(0, JSVal.str "a"), (1, JSVal.str "b")] :=
  ⟨(unhandled_list_keyed_by_reason 0 [.str "a", .str "b", .str "a"]).1, rfl⟩

end DexiePromise
